import Mathlib

/-!
Verification development for the MQTT core of ccu-jack (src/mqtt/mqtt.go).

Go strings are modelled as List Char, Go int64 as Int (with an explicit
two-complement wrap where the source can overflow), time.Time as its
UnixNano value (Int), veap.State as Int (veap encodes states as integers,
0 = GOOD), and interface-typed JSON values as the inductive Json below.
byte payloads are modelled at the character level.
-/

/-- Convert a Lean string literal to the List Char representation used for
Go strings throughout this development. -/
def str (s : String) : List Char := s.data

/-- JSON values as produced by encoding/json when decoding into interface
values: null, booleans, numbers, strings, arrays and objects.  A number is
kept in exact decimal form m * 10 ^ e together with the flag intLit that
records whether its literal was plain integer syntax (no fraction part and
no exponent); encoding/json only accepts a number for an int64-typed field
when its literal is integer syntax (strconv.ParseInt on the literal). -/
inductive Json where
  | null : Json
  | bool (b : Bool) : Json
  | num (m e : Int) (intLit : Bool) : Json
  | str (s : List Char) : Json
  | arr (elems : List Json) : Json
  | obj (membs : List (List Char × Json)) : Json

/-- JSON token-level whitespace (encoding/json scanner): space, tab,
newline, carriage return. -/
def jsonWS (c : Char) : Bool := c = ' ' || c = '\t' || c = '\n' || c = '\r'

/-- Skip leading JSON whitespace. -/
def skipWS : List Char → List Char
  | c :: cs => if jsonWS c then skipWS cs else c :: cs
  | [] => []

/-- Value of a hexadecimal digit, as accepted in a \u escape. -/
def hexVal (c : Char) : Option Nat :=
  if '0' ≤ c ∧ c ≤ '9' then some (c.toNat - 48)
  else if 'a' ≤ c ∧ c ≤ 'f' then some (c.toNat - 87)
  else if 'A' ≤ c ∧ c ≤ 'F' then some (c.toNat - 55)
  else none

/-- Body of a JSON string literal, after the opening quote.  Mirrors the
encoding/json unquoting: raw control characters below 0x20 are rejected,
the standard single-character escapes and \uXXXX are decoded, surrogate
pairs are combined, and lone surrogates become U+FFFD (Go writes the
replacement character instead of failing).  Every recursive call consumes
at least one input character and one unit of fuel, so callers that supply
fuel larger than the input length can never exhaust it. -/
def parseStringF : Nat → List Char → Except (List Char) (List Char × List Char)
  | 0, _ => .error (str "string fuel exhausted")
  | _ + 1, [] => .error (str "unexpected end of input in string")
  | f + 1, c :: rest =>
    if c = '"' then .ok ([], rest)
    else if c = '\\' then
      match rest with
      | [] => .error (str "unexpected end of input in string escape")
      | e :: rest2 =>
        if e = 'u' then
          match rest2 with
          | a :: b :: c2 :: d :: rest3 =>
            match hexVal a, hexVal b, hexVal c2, hexVal d with
            | some ha, some hb, some hc, some hd =>
              let n := 4096 * ha + 256 * hb + 16 * hc + hd
              if 55296 ≤ n ∧ n ≤ 56319 then
                match rest3 with
                | '\\' :: 'u' :: a2 :: b2 :: c3 :: d2 :: rest4 =>
                  match hexVal a2, hexVal b2, hexVal c3, hexVal d2 with
                  | some ha2, some hb2, some hc2, some hd2 =>
                    let n2 := 4096 * ha2 + 256 * hb2 + 16 * hc2 + hd2
                    if 56320 ≤ n2 ∧ n2 ≤ 57343 then
                      (parseStringF f rest4).map
                        (fun p => (Char.ofNat (65536 + 1024 * (n - 55296) + (n2 - 56320)) :: p.1, p.2))
                    else (parseStringF f rest3).map (fun p => ('\uFFFD' :: p.1, p.2))
                  | _, _, _, _ => (parseStringF f rest3).map (fun p => ('\uFFFD' :: p.1, p.2))
                | _ => (parseStringF f rest3).map (fun p => ('\uFFFD' :: p.1, p.2))
              else if 56320 ≤ n ∧ n ≤ 57343 then
                (parseStringF f rest3).map (fun p => ('\uFFFD' :: p.1, p.2))
              else
                (parseStringF f rest3).map (fun p => (Char.ofNat n :: p.1, p.2))
            | _, _, _, _ => .error (str "invalid hex escape in string")
          | _ => .error (str "invalid hex escape in string")
        else if e = '"' then (parseStringF f rest2).map (fun p => ('"' :: p.1, p.2))
        else if e = '\\' then (parseStringF f rest2).map (fun p => ('\\' :: p.1, p.2))
        else if e = '/' then (parseStringF f rest2).map (fun p => ('/' :: p.1, p.2))
        else if e = 'b' then (parseStringF f rest2).map (fun p => (Char.ofNat 8 :: p.1, p.2))
        else if e = 'f' then (parseStringF f rest2).map (fun p => (Char.ofNat 12 :: p.1, p.2))
        else if e = 'n' then (parseStringF f rest2).map (fun p => ('\n' :: p.1, p.2))
        else if e = 'r' then (parseStringF f rest2).map (fun p => ('\r' :: p.1, p.2))
        else if e = 't' then (parseStringF f rest2).map (fun p => ('\t' :: p.1, p.2))
        else .error (str "invalid escape in string")
    else if c.toNat < 32 then .error (str "invalid control character in string")
    else (parseStringF f rest).map (fun p => (c :: p.1, p.2))

/-- Consume a run of decimal digits, folding their value; also counts the
digits consumed.  Used for integer parts, fraction parts and exponents. -/
def digitsLoopCnt (acc cnt : Nat) : List Char → Nat × Nat × List Char
  | c :: cs =>
    if c.isDigit then digitsLoopCnt (10 * acc + (c.toNat - 48)) (cnt + 1) cs
    else (acc, cnt, c :: cs)
  | [] => (acc, cnt, [])

/-- Strip factors of ten from the mantissa, moving them into the exponent;
fuel-driven so that it stays kernel-computable. -/
def normLoop : Nat → Int → Int → Int × Int
  | 0, m, e => (m, e)
  | f + 1, m, e => if m.tmod 10 = 0 then normLoop f (m.tdiv 10) (e + 1) else (m, e)

/-- Number of decimal digits of a natural number (fuel-driven). -/
def numDigitsF : Nat → Nat → Nat
  | 0, _ => 1
  | f + 1, n => if n < 10 then 1 else numDigitsF f (n / 10) + 1

/-- Number of decimal digits of a natural number. -/
def numDigits (n : Nat) : Nat := numDigitsF n n

/-- Canonical form of an exact decimal m * 10 ^ e: the mantissa is not
divisible by ten unless it is zero, and zero is represented as (0, 0). -/
def normNum (m e : Int) : Int × Int :=
  if m = 0 then (0, 0) else normLoop (numDigits m.natAbs) m e

/-- Build the Json number from the parsed literal components: sign, integer
part, fraction value and digit count, exponent presence and value. -/
def mkJNum (neg : Bool) (ip fv fc : Nat) (hasExp : Bool) (ev : Int) : Json :=
  let mag : Nat := ip * 10 ^ fc + fv
  let m : Int := if neg then -(mag : Int) else (mag : Int)
  let p := normNum m (ev - (fc : Int))
  Json.num p.1 p.2 ((fc == 0) && !hasExp)

/-- Exponent digits after an optional sign; at least one digit required. -/
def parseExpDigits (neg : Bool) : List Char → Option (Int × List Char)
  | c :: t =>
    if c.isDigit then
      let p := digitsLoopCnt (c.toNat - 48) 1 t
      some ((if neg then -(p.1 : Int) else (p.1 : Int)), p.2.2)
    else none
  | [] => none

/-- Exponent part after the e or E marker: optional sign, then digits. -/
def parseExp : List Char → Option (Int × List Char)
  | [] => none
  | c :: t =>
    if c = '+' then parseExpDigits false t
    else if c = '-' then parseExpDigits true t
    else parseExpDigits false (c :: t)

/-- Number literal continuation after integer and fraction parts: optional
exponent. -/
def parseNumAfterFrac (neg : Bool) (ip fv fc : Nat) : List Char → Except (List Char) (Json × List Char)
  | c :: t =>
    if c = 'e' ∨ c = 'E' then
      match parseExp t with
      | some (ev, rest) => .ok (mkJNum neg ip fv fc true ev, rest)
      | none => .error (str "invalid number: malformed exponent")
    else .ok (mkJNum neg ip fv fc false 0, c :: t)
  | [] => .ok (mkJNum neg ip fv fc false 0, [])

/-- Number literal continuation after the integer part: optional fraction
(at least one digit), then optional exponent. -/
def parseNumAfterInt (neg : Bool) (ip : Nat) : List Char → Except (List Char) (Json × List Char)
  | [] => parseNumAfterFrac neg ip 0 0 []
  | c :: t =>
    if c = '.' then
      match t with
      | [] => .error (str "invalid number: expected digit after decimal point")
      | c2 :: t2 =>
        if c2.isDigit then
          let p := digitsLoopCnt (c2.toNat - 48) 1 t2
          parseNumAfterFrac neg ip p.1 p.2.1 p.2.2
        else .error (str "invalid number: expected digit after decimal point")
    else parseNumAfterFrac neg ip 0 0 (c :: t)

/-- Number literal after the optional minus sign: a single 0, or a nonzero
digit followed by more digits (the JSON grammar forbids leading zeros). -/
def parseNumberBody (neg : Bool) : List Char → Except (List Char) (Json × List Char)
  | [] => .error (str "invalid number: unexpected end")
  | c :: t =>
    if c = '0' then parseNumAfterInt neg 0 t
    else if c.isDigit then
      let p := digitsLoopCnt (c.toNat - 48) 1 t
      parseNumAfterInt neg p.1 p.2.2
    else .error (str "invalid number")

/-- JSON number literal per the encoding/json grammar. -/
def parseNumber : List Char → Except (List Char) (Json × List Char)
  | [] => .error (str "invalid number: unexpected end")
  | c :: t => if c = '-' then parseNumberBody true t else parseNumberBody false (c :: t)

/-- Members of an object after the opening brace (or after a comma when
first is false); rec parses one nested value.  The fuel argument only
bounds the loop and is always provided larger than the input length. -/
def membersLoop (rec : List Char → Except (List Char) (Json × List Char)) :
    Nat → Bool → List Char → Except (List Char) (List (List Char × Json) × List Char)
  | 0, _, _ => .error (str "object member fuel exhausted")
  | f + 1, first, l =>
    match skipWS l with
    | '\x7d' :: r => if first then .ok ([], r) else .error (str "invalid character in object")
    | '"' :: r =>
      match parseStringF (r.length + 1) r with
      | .error e => .error e
      | .ok (name, r2) =>
        match skipWS r2 with
        | ':' :: r3 =>
          match rec r3 with
          | .error e => .error e
          | .ok (v, r4) =>
            match skipWS r4 with
            | ',' :: r5 => (membersLoop rec f false r5).map (fun p => ((name, v) :: p.1, p.2))
            | '\x7d' :: r5 => .ok ([(name, v)], r5)
            | _ => .error (str "invalid character after object member")
        | _ => .error (str "expected colon after object key")
    | _ => .error (str "invalid character looking for object key")

/-- Elements of an array after the opening bracket. -/
def elemsLoop (rec : List Char → Except (List Char) (Json × List Char)) :
    Nat → Bool → List Char → Except (List Char) (List Json × List Char)
  | 0, _, _ => .error (str "array element fuel exhausted")
  | f + 1, first, l =>
    match skipWS l with
    | ']' :: r =>
      if first then .ok ([], r)
      else .error (str "invalid character in array")
    | l2 =>
      match rec l2 with
      | .error e => .error e
      | .ok (v, r2) =>
        match skipWS r2 with
        | ',' :: r3 => (elemsLoop rec f false r3).map (fun p => (v :: p.1, p.2))
        | ']' :: r3 => .ok ([v], r3)
        | _ => .error (str "invalid character after array element")

/-- One layer of the value grammar; rec parses nested values. -/
def parseLayer (rec : List Char → Except (List Char) (Json × List Char)) (l : List Char) :
    Except (List Char) (Json × List Char) :=
  match skipWS l with
  | [] => .error (str "unexpected end of JSON input")
  | c :: r =>
    if c = '"' then (parseStringF (r.length + 1) r).map (fun p => (Json.str p.1, p.2))
    else if c = '\x7b' then (membersLoop rec (r.length + 1) true r).map (fun p => (Json.obj p.1, p.2))
    else if c = '[' then (elemsLoop rec (r.length + 1) true r).map (fun p => (Json.arr p.1, p.2))
    else if c = 't' then
      match r with
      | 'r' :: 'u' :: 'e' :: r2 => .ok (Json.bool true, r2)
      | _ => .error (str "invalid character in literal")
    else if c = 'f' then
      match r with
      | 'a' :: 'l' :: 's' :: 'e' :: r2 => .ok (Json.bool false, r2)
      | _ => .error (str "invalid character in literal")
    else if c = 'n' then
      match r with
      | 'u' :: 'l' :: 'l' :: r2 => .ok (Json.null, r2)
      | _ => .error (str "invalid character in literal")
    else if c = '-' || c.isDigit then parseNumber (c :: r)
    else .error (str "invalid character looking for beginning of value")

/-- Parse one JSON value; the fuel bounds the nesting depth, and every
nesting level consumes at least one input character, so length + 2 fuel
can never be exhausted. -/
def parseValueF : Nat → List Char → Except (List Char) (Json × List Char)
  | 0, _ => .error (str "value nesting fuel exhausted")
  | f + 1, l => parseLayer (parseValueF f) l

/-- Parse the first JSON value of a payload. -/
def goParse (payload : List Char) : Except (List Char) (Json × List Char) :=
  parseValueF (payload.length + 2) payload

/-- Whether the scanner of encoding/json ends the value at its closing
byte: only objects and arrays do (scanEndObject and scanEndArray fire on
the closing delimiter); numbers, the literals true, false, null and also
top-level strings complete only on the byte after the value or at end of
input (stateEndTop delays scanEnd by one byte). -/
def scanSelfTerm : Json → Bool
  | .obj _ | .arr _ => true
  | _ => false

/-- Case-insensitive matching of an object key (first argument) against a
struct field name (second argument), as encoding/json does it.  For the
wirePV field names ts and s, which contain the letter s, the package
selects equalFoldRight of fold.go: the ASCII field name is walked along
the key, matching ASCII letters case-insensitively (fold with the case
mask 0xDF) and any other ASCII character exactly; a non-ASCII key
character matches only as the long s U+017F against the letter s or as
the Kelvin sign U+212A against the letter k, and the key must be consumed
exactly.  (For the all-letter name v the package picks
simpleLetterEqualFold, which agrees with equalFoldRight on ASCII names
without s or k, so one function serves all three fields.) -/
def foldEq : List Char → List Char → Bool
  | [], [] => true
  | [], _ :: _ => false
  | _ :: _, [] => false
  | tc :: tl, sb :: sl =>
    if tc.toNat < 128 then
      if sb = tc then foldEq tl sl
      else if 65 ≤ sb.toNat &&& 0xDF ∧ sb.toNat &&& 0xDF ≤ 90 then
        if sb.toNat &&& 0xDF = tc.toNat &&& 0xDF then foldEq tl sl else false
      else false
    else
      if sb = 's' ∨ sb = 'S' then
        if tc.toNat = 383 then foldEq tl sl else false
      else if sb = 'k' ∨ sb = 'K' then
        if tc.toNat = 8490 then foldEq tl sl else false
      else false

/-- The wirePV struct of src/mqtt/mqtt.go: Time int64 (json tag ts), Value
interface (tag v), State veap.State (tag s); the Go zero value is 0 / nil
/ 0. -/
structure WireRec where
  time : Int := 0
  value : Json := Json.null
  state : Int := 0

/-- Smallest int64 value. -/
def int64Min : Int := -9223372036854775808

/-- Largest int64 value. -/
def int64Max : Int := 9223372036854775807

/-- Decode a JSON number into an int64-typed struct field: succeeds exactly
when the literal was integer syntax and the value fits in int64
(strconv.ParseInt semantics). -/
def jnumInt : Int → Int → Bool → Option Int := fun m e intLit =>
  if intLit then
    let v := m * 10 ^ e.toNat
    if int64Min ≤ v ∧ v ≤ int64Max then some v else none
  else none

/-- Apply one object member to the wirePV being decoded, with
DisallowUnknownFields semantics: a name that fold-matches none of ts, v, s
is an error; a null field value is a no-op (encoding/json skips nulls for
concrete fields and stores nil for interface fields); a ts or s value must
be an integer-syntax number in int64 range. -/
def applyField (acc : WireRec) (name : List Char) (v : Json) : Except (List Char) WireRec :=
  if foldEq name (str "ts") then
    match v with
    | .null => .ok acc
    | .num m e intLit =>
      match jnumInt m e intLit with
      | some n => .ok { acc with time := n }
      | none => .error (str "cannot unmarshal number into field ts of type int64")
    | _ => .error (str "cannot unmarshal value into field ts of type int64")
  else if foldEq name (str "v") then .ok { acc with value := v }
  else if foldEq name (str "s") then
    match v with
    | .null => .ok acc
    | .num m e intLit =>
      match jnumInt m e intLit with
      | some n => .ok { acc with state := n }
      | none => .error (str "cannot unmarshal number into field s of type veap.State")
    | _ => .error (str "cannot unmarshal value into field s of type veap.State")
  else .error (str "unknown field")

/-- Fold all members of an object into the wirePV, in order (a later
duplicate overrides an earlier one, as in encoding/json). -/
def applyFields (acc : WireRec) : List (List Char × Json) → Except (List Char) WireRec
  | [] => .ok acc
  | (n, v) :: rest =>
    match applyField acc n v with
    | .error e => .error e
    | .ok acc2 => applyFields acc2 rest

/-- Unmarshal one parsed JSON value into the wirePV struct: null is a
no-op on the zero value, an object is decoded field by field, and any
other kind is a type error. -/
def jsonToWire : Json → Except (List Char) WireRec
  | .null => .ok {}
  | .obj membs => applyFields {} membs
  | _ => .error (str "cannot unmarshal value into Go value of type wirePV")

/-- The json.Decoder.Decode step of wireToPV: parse the first JSON value
of the payload and decode it into wirePV, returning the unconsumed rest of
the payload.  Decode itself never rejects content after the first value
(stateEndTop returns scanEnd even for a non-space byte, so trailing bytes
are only the next Decode's problem); errors come from a malformed first
value or from the field decoding (unknown fields, type mismatches). -/
def decodeStream (payload : List Char) : Except (List Char) (WireRec × List Char) :=
  match goParse payload with
  | .error e => .error e
  | .ok (j, rest) => (jsonToWire j).map (fun w => (w, rest))

/-- The json.Unmarshal of the whole payload into an interface value (the
second, generic tier): checkValid accepts one JSON value followed by
nothing but JSON whitespace. -/
def unmarshalWhole (payload : List Char) : Except (List Char) Json :=
  match goParse payload with
  | .error e => .error e
  | .ok (j, rest) =>
    match rest with
    | [] => .ok j
    | c :: r =>
      if (c :: r).all (fun x => jsonWS x) then .ok j
      else .error (str "invalid character after top-level value")

/-- Unicode whitespace as trimmed by strings.TrimSpace (the White_Space
property): 0x09 to 0x0D, space, NEL, NBSP, and the Unicode space
separators. -/
def goSpace (c : Char) : Bool :=
  (9 ≤ c.toNat && c.toNat ≤ 13) || c = ' ' || c.toNat = 133 || c.toNat = 160 ||
  c.toNat = 5760 || (8192 ≤ c.toNat && c.toNat ≤ 8202) || c.toNat = 8232 ||
  c.toNat = 8233 || c.toNat = 8239 || c.toNat = 8287 || c.toNat = 12288

/-- Model of strings.TrimSpace: drop leading and trailing Unicode white
space. -/
def goTrimSpace (l : List Char) : List Char :=
  ((l.dropWhile goSpace).reverse.dropWhile goSpace).reverse

/-- Model of ioutil.ReadAll on dec.Buffered(): reading from the in-memory
buffer of a bytes.Reader cannot fail, so the error branch of wireToPV at
this point is unreachable; the model keeps the Except type of the source
nonetheless. -/
def readAllModel (l : List Char) : Except (List Char) (List Char) := .ok l

/-- UTF-8 encoded length of one character. -/
def utf8CharLen (c : Char) : Nat :=
  if c.toNat < 128 then 1 else if c.toNat < 2048 then 2
  else if c.toNat < 65536 then 3 else 4

/-- UTF-8 encoded length of a string. -/
def utf8Len : List Char → Nat
  | [] => 0
  | c :: t => utf8CharLen c + utf8Len t

/-- Cumulative number of bytes Decoder.refill has read once the scanner
needs the first `need` bytes of the input: refill grows the buffer to
2 * cap + 512 and fills it from the reader, so the cumulative read sizes
are 512, 1536, 3584, ... and reading stops with the chunk in which the
value ends (fuel-driven; the fuel `need` suffices because every refill
adds at least 512 bytes). -/
def readTotalF : Nat → Nat → Nat → Nat
  | 0, t, _ => t
  | f + 1, t, need => if need ≤ t then t else readTotalF f (2 * t + 512) need

/-- Bytes read from the payload when the scanner needs the first `need`
bytes, capped by the payload length (the in-memory reader has no more). -/
def readTotal (need len : Nat) : Nat := min (readTotalF need 512 need) len

/-- The longest prefix of a suffix of the payload that fits a byte budget:
the complete characters that fit, plus the count of leftover budget bytes
that cut into the next character (an incomplete UTF-8 sequence). -/
def takeBytes : Nat → List Char → List Char × Nat
  | _, [] => ([], 0)
  | b, c :: t =>
    if b = 0 then ([], 0)
    else if utf8CharLen c ≤ b then
      let p := takeBytes (b - utf8CharLen c) t
      (c :: p.1, p.2)
    else ([], b)

/-- Model of dec.Buffered() after the Decode of wireToPV: only the bytes
already read from the underlying bytes.Reader are visible, namely the
unconsumed part of the chunked reads.  The scanner needs the bytes of the
value itself, plus one lookahead byte when the value is a number, literal
or string and input remains (objects and arrays end at their closing
delimiter).  The result is the complete characters of that window plus
the count of bytes cutting into a further character (an incomplete UTF-8
sequence, which strings.TrimSpace never trims). -/
def bufferedWindow (payload : List Char) : List Char × Nat :=
  match goParse payload with
  | .error _ => ([], 0)
  | .ok (j, rest) =>
    let consumed := utf8Len payload - utf8Len rest
    let need := if rest.isEmpty then consumed
      else if scanSelfTerm j then consumed else consumed + 1
    takeBytes (readTotal need (utf8Len payload) - consumed) rest

/-- The veap.PV value: Time (modelled by its UnixNano value), Value,
State. -/
structure PV where
  time : Int
  value : Json
  state : Int

/-- GOOD state of go-veap (value 0). -/
def stateGood : Int := 0

/-- Two-complement wrap of an integer to int64, as performed implicitly by
Go int64 arithmetic (w.Time * 1000000 can overflow). -/
def wrap64 (x : Int) : Int :=
  (x + 9223372036854775808) % 18446744073709551616 - 9223372036854775808

/-- Tail of wireToPV shared by all tiers: if no timestamp is provided (ts
zero) use the current time, else interpret ts as milliseconds since the
epoch (ts * 1000000 nanoseconds, wrapping in int64); state and value are
taken from the wirePV. -/
def mkPV (now : Int) (w : WireRec) : PV :=
  { time := if w.time = 0 then now else wrap64 (w.time * 1000000),
    value := w.value,
    state := w.state }

/-- Tiers two and three of wireToPV: parse the whole payload as a generic
JSON value; if that also fails, use the whole payload as a string value. -/
def lenientPV (now : Int) (payload : List Char) : PV :=
  match unmarshalWhole payload with
  | .ok v => mkPV now { value := v }
  | .error _ => mkPV now { value := Json.str payload }

/-- Model of wireToPV (src/mqtt/mqtt.go lines 156 to 201): strict decode of
the payload as wirePV with DisallowUnknownFields, then the trailing-content
check over ReadAll(dec.Buffered()) — only the decoder's buffered read
window, not the whole remainder: content past the chunk boundary is never
seen.  The window is non-whitespace when a complete character in it
survives TrimSpace or when it ends in an incomplete UTF-8 sequence.  On
any failure the lenient tiers run, then the shared timestamp and state
defaulting.  now is the value time.Now() would produce at the call (as
UnixNano). -/
def wireToPV (now : Int) (payload : List Char) : Except (List Char) PV :=
  match decodeStream payload with
  | .ok (w, _) =>
    match readAllModel (bufferedWindow payload).1 with
    | .error e => .error (str "ReadAll failed: " ++ e)
    | .ok c =>
      if (goTrimSpace c).length ≠ 0 ∨ (bufferedWindow payload).2 ≠ 0 then
        .ok (lenientPV now payload)
      else .ok (mkPV now w)
  | .error _ => .ok (lenientPV now payload)

/-- Decimal digit character. -/
def digitChar (n : Nat) : Char := Char.ofNat (48 + n)

/-- Decimal digits of a natural number, most significant first
(fuel-driven for kernel computability; the fuel n + 1 always suffices). -/
def natDigitsF : Nat → Nat → List Char
  | 0, _ => []
  | f + 1, n => if n < 10 then [digitChar n] else natDigitsF f (n / 10) ++ [digitChar (n % 10)]

/-- Decimal digits of a natural number. -/
def natDigits (n : Nat) : List Char := natDigitsF (n + 1) n

/-- Decimal representation of an integer, as produced by strconv for
int64 struct fields. -/
def printInt (n : Int) : List Char := (if n < 0 then ['-'] else []) ++ natDigits n.natAbs

/-- Hexadecimal digit character, lowercase, as used in \u00XX escapes. -/
def hexDigitChar (n : Nat) : Char :=
  if n < 10 then Char.ofNat (48 + n) else Char.ofNat (87 + n)

/-- Escape one character of a string as encoding/json.Marshal does (with
the default HTML escaping): quote and backslash get a backslash escape,
newline, carriage return and tab their short forms, other control
characters a \u00XX escape, the HTML-sensitive characters and the line
separators their \u escapes, and everything else is copied verbatim. -/
def escapeChar (c : Char) : List Char :=
  if c = '"' then ['\\', '"']
  else if c = '\\' then ['\\', '\\']
  else if c = '\n' then ['\\', 'n']
  else if c = '\r' then ['\\', 'r']
  else if c = '\t' then ['\\', 't']
  else if c.toNat < 32 then
    ['\\', 'u', '0', '0', hexDigitChar (c.toNat / 16), hexDigitChar (c.toNat % 16)]
  else if c = '<' then str "\\u003c"
  else if c = '>' then str "\\u003e"
  else if c = '&' then str "\\u0026"
  else if c.toNat = 8232 then str "\\u2028"
  else if c.toNat = 8233 then str "\\u2029"
  else [c]

/-- Escape every character of a string body. -/
def escapeList : List Char → List Char
  | [] => []
  | c :: cs => escapeChar c ++ escapeList cs

/-- Marshal a string value. -/
def printString (s : List Char) : List Char := '"' :: escapeList s ++ ['"']

/-- Marshal a number value in exact decimal form: integer-syntax numbers
as plain digits with their trailing zeros, others in mantissa-exponent
form.  This canonical formatting stands in for the shortest float64
formatting of strconv; like it, it is inverted exactly by the number
parser above. -/
def printJNum (m e : Int) (intLit : Bool) : List Char :=
  let digits := (if m < 0 then ['-'] else []) ++ natDigits m.natAbs
  if intLit then digits ++ List.replicate e.toNat '0'
  else digits ++ 'e' :: ((if e < 0 then ['-'] else []) ++ natDigits e.natAbs)

mutual
/-- Marshal a JSON value, as encoding/json.Marshal renders an interface
value (arrays in element order; parsed objects keep their member order
here, whereas Go re-sorts map keys — no claim below depends on composite
values passing through Marshal). -/
def printJson : Json → List Char
  | .null => str "null"
  | .bool true => str "true"
  | .bool false => str "false"
  | .num m e intLit => printJNum m e intLit
  | .str s => printString s
  | .arr l => '[' :: printJsonList l ++ [']']
  | .obj l => '\x7b' :: printJsonMembers l ++ ['\x7d']
/-- Marshal array elements, comma-separated. -/
def printJsonList : List Json → List Char
  | [] => []
  | [j] => printJson j
  | j :: js => printJson j ++ ',' :: printJsonList js
/-- Marshal object members, comma-separated. -/
def printJsonMembers : List (List Char × Json) → List Char
  | [] => []
  | [(n, j)] => printString n ++ ':' :: printJson j
  | (n, j) :: js => printString n ++ ':' :: printJson j ++ ',' :: printJsonMembers js
end

/-- Marshal the wirePV struct: the field order ts, v, s of the struct
declaration. -/
def printWire (w : WireRec) : List Char :=
  str "\x7b\"ts\":" ++ printInt w.time ++ str ",\"v\":" ++ printJson w.value ++
  str ",\"s\":" ++ printInt w.state ++ ['\x7d']

/-- Model of pvToWire (src/mqtt/mqtt.go lines 203 to 213): truncate the
time to milliseconds (Go integer division truncates toward zero, which is
Int.tdiv) and marshal the wirePV.  json.Marshal only fails for value
kinds that cannot occur in the modelled value domain (channels, functions,
cyclic data), so the error branch of the source is unreachable here and
the function always returns ok. -/
def pvToWire (pv : PV) : Except (List Char) (List Char) :=
  .ok (printWire { time := Int.tdiv pv.time 1000000, value := pv.value, state := pv.state })

/-- Modelled from the spec: the constant deviceStatusTopic referenced by
publishEvent is defined elsewhere in the repository (not under the given
sources); section 4.4 of the spec fixes the device status topic prefix as
device/status. -/
def deviceStatusTopic : List Char := str "device/status"

/-- Split a device address at the first colon, as publishEvent does with
strings.IndexRune: none when no colon occurs, otherwise the part before
the first colon and everything after it. -/
def splitDeviceAddress (address : List Char) : Option (List Char × List Char) :=
  match address.findIdx? (fun c => c = ':') with
  | none => none
  | some p => some (address.take p, address.drop (p + 1))

/-- The fmt.Sprintf of publishEvent: deviceStatusTopic/device/channel/parameter. -/
def buildTopic (dev ch valueKey : List Char) : List Char :=
  deviceStatusTopic ++ '/' :: dev ++ '/' :: ch ++ '/' :: valueKey

/-- QoS level 1 of go-mqtt (message.QosAtLeastOnce). -/
def qosAtLeastOnce : Nat := 1

/-- QoS level 2 of go-mqtt (message.QosExactlyOnce). -/
def qosExactlyOnce : Nat := 2

/-- The qos and retain selection of publishEvent: every parameter except
INSTALL_TEST and the PRESS_ family publishes at-least-once and retained;
INSTALL_TEST and PRESS_ parameters publish exactly-once and unretained.
The function is pure, so repeated calls with the same name trivially give
the same decision. -/
def selectQosRetain (valueKey : List Char) : Nat × Bool :=
  if valueKey ≠ str "INSTALL_TEST" ∧ ¬((str "PRESS_").isPrefixOf valueKey = true) then
    (qosAtLeastOnce, true)
  else
    (qosExactlyOnce, false)

/-- Everything publishEvent computes before calling Server.PublishPV: the
address split (an address without a colon is the error, Unexpected event
from a device), the topic, the PV stamped with the current time and GOOD
state, and the publish decision.  now is the UnixNano value of
time.Now(). -/
def publishEventCore (now : Int) (address valueKey : List Char) (value : Json) :
    Except (List Char) (List Char × PV × Nat × Bool) :=
  match splitDeviceAddress address with
  | none => .error (str "Unexpected event from a device: " ++ address)
  | some (dev, ch) =>
    let topic := buildTopic dev ch valueKey
    let pv : PV := { time := now, value := value, state := stateGood }
    let d := selectQosRetain valueKey
    .ok (topic, pv, d.1, d.2)

/-- Model of EventReceiver.publishEvent: run the pure part, then hand the
publication to the server (abstracted as the oracle pub, which covers
Server.PublishPV including pvToWire and the broker publish, returning some
error or none); the interfaceID parameter is ignored by the source. -/
def publishEvent (pub : List Char → PV → Nat → Bool → Option (List Char)) (now : Int)
    (_iid address valueKey : List Char) (value : Json) : Option (List Char) :=
  match publishEventCore now address valueKey value with
  | .error e => some e
  | .ok (topic, pv, qos, retain) => pub topic pv qos retain

/-- The six notification kinds of the itf.LogicLayer interface, with the
arguments the receiver methods take (device descriptions are kept
abstract in alpha). -/
inductive Notification (α : Type) where
  | event (iid address valueKey : List Char) (value : Json)
  | newDevices (iid : List Char) (devDescriptions : List α)
  | deleteDevices (iid : List Char) (addresses : List (List Char))
  | updateDevice (iid address : List Char) (hint : Int)
  | replaceDevice (iid oldDeviceAddress newDeviceAddress : List Char)
  | readdedDevice (iid : List Char) (deletedAddresses : List (List Char))

/-- One EventReceiver handling one notification: the log lines it emits
and the notification it passes to Next.  Each branch reconstructs the
forwarded call from the corresponding method body: Event publishes first
(a failure is only logged) and forwards the identical arguments; the five
other methods only forward. -/
def forwardOne {α : Type} (pub : List Char → PV → Nat → Bool → Option (List Char)) (now : Int) :
    Notification α → List (List Char) × Notification α
  | .event iid address valueKey value =>
    (match publishEvent pub now iid address valueKey value with
     | some e => [str "Publish of event failed: " ++ e]
     | none => [],
     .event iid address valueKey value)
  | .newDevices iid devDescriptions => ([], .newDevices iid devDescriptions)
  | .deleteDevices iid addresses => ([], .deleteDevices iid addresses)
  | .updateDevice iid address hint => ([], .updateDevice iid address hint)
  | .replaceDevice iid oldA newA => ([], .replaceDevice iid oldA newA)
  | .readdedDevice iid deletedAddresses => ([], .readdedDevice iid deletedAddresses)

/-- The notification sequence observed by handler number i of a chain of
EventReceivers, when the original sequence ns is fed to handler 0: each
handler passes what it observed through forwardOne to the next one.  The
publish oracle and the clock may differ per handler. -/
def observedAt {α : Type} (pub : Nat → List Char → PV → Nat → Bool → Option (List Char))
    (now : Nat → Int) (ns : List (Notification α)) : Nat → List (Notification α)
  | 0 => ns
  | i + 1 => (observedAt pub now ns i).map (fun n => (forwardOne (pub i) (now i) n).2)

/-- Model of EventReceiver.Event: publish the event (logging a failure),
then forward to Next.Event with the identical arguments and return its
result.  The first component is the emitted log, the second the value
Event returns. -/
def eventMethod (pub : List Char → PV → Nat → Bool → Option (List Char)) (now : Int)
    (next : List Char → List Char → List Char → Json → Option (List Char))
    (iid address valueKey : List Char) (value : Json) :
    List (List Char) × Option (List Char) :=
  (match publishEvent pub now iid address valueKey value with
   | some e => [str "Publish of event failed: " ++ e]
   | none => [],
   next iid address valueKey value)

/-- Atomic actions of a listener goroutine spawned by Server.Start: serve
is the ListenAndServe or ListenAndServeTLS call (it returns once the
server is closed, or immediately when it fails, recorded in fails); done
is doneServer.Done(); send is the blocking channel send on ServeErr. -/
inductive Instr where
  | serve (fails : Bool)
  | done
  | send
  deriving DecidableEq

/-- The body of the plain MQTT listener goroutine (Start, lines 51 to 63):
serve, then Done, then, only when serving failed and an error channel is
attached, the channel send. -/
def plainProg (attached fails : Bool) : List Instr :=
  [Instr.serve fails, Instr.done] ++ (if fails && attached then [Instr.send] else [])

/-- The body of the secure MQTT listener goroutine (Start, lines 69 to
93): when the certificate pair loads, it behaves like the plain listener;
when loading fails, it calls Done first and then (if an error channel is
attached) performs the channel send and returns without ever serving. -/
def tlsProg (attached certOk fails : Bool) : List Instr :=
  if certOk then [Instr.serve fails, Instr.done] ++ (if fails && attached then [Instr.send] else [])
  else [Instr.done] ++ (if attached then [Instr.send] else [])

/-- State of the concurrent system: the remaining program of every spawned
listener task, the WaitGroup counter, whether Server.Close has been
called, and how many error sends a consumer has received. -/
structure SysState where
  tasks : List (List Instr)
  counter : Nat
  closed : Bool
  delivered : Nat
  deriving DecidableEq

/-- Whether an instruction can execute: serve returns once the server is
closed or when it fails on its own; Done never blocks; the channel send
needs a ready consumer (recv). -/
def instrEnabled (recv : Bool) (closed : Bool) : Instr → Bool
  | .serve fails => fails || closed
  | .done => true
  | .send => recv

/-- Effect of executing the head instruction of task i: Done decrements
the WaitGroup counter, send delivers one error, serve does nothing. -/
def applyInstr (s : SysState) (i : Nat) (instr : Instr) (rest : List Instr) : SysState :=
  { s with
    tasks := s.tasks.set i rest,
    counter := match instr with | .done => s.counter - 1 | _ => s.counter,
    delivered := match instr with | .send => s.delivered + 1 | _ => s.delivered }

/-- One step of the system: some task executes its enabled head
instruction, or Stop issues Server.Close. -/
inductive MStep (recv : Bool) : SysState → SysState → Prop where
  | exec (s : SysState) (i : Nat) (instr : Instr) (rest : List Instr)
      (htask : s.tasks.get? i = some (instr :: rest))
      (hen : instrEnabled recv s.closed instr = true) :
      MStep recv s (applyInstr s i instr rest)
  | close (s : SysState) : MStep recv s { s with closed := true }

/-- Reachability by any number of steps. -/
def MSteps (recv : Bool) : SysState → SysState → Prop := Relation.ReflTransGen (MStep recv)

/-- The state right after Server.Start (lines 43 to 96): one task per
configured listener address, each preceded by doneServer.Add(1), nothing
closed, nothing delivered.  attached records whether the caller supplied
a ServeErr channel, certOk whether the certificate pair loads, and the
fails flags whether each serve call returns an error. -/
def mqttStart (addr addrTLS attached certOk plainFails tlsFails : Bool) : SysState :=
  { tasks := (if addr then [plainProg attached plainFails] else []) ++
             (if addrTLS then [tlsProg attached certOk tlsFails] else []),
    counter := (if addr then 1 else 0) + (if addrTLS then 1 else 0),
    closed := false,
    delivered := 0 }

/-- Number of pending Done signals of one task. -/
def doneCount (t : List Instr) : Nat := t.count Instr.done

/-- WaitGroup invariant: the counter always equals the total number of
pending Done instructions (Stop's doneServer.Wait() returns exactly when
this reaches zero, i.e. when every task has signalled the wait group). -/
def counterInv (s : SysState) : Prop :=
  s.counter = (s.tasks.map doneCount).sum

/-- No send instruction occurs before the first Done of a task: each
goroutine signals the wait group before it attempts the blocking error
send. -/
def noSendBeforeDone : List Instr → Bool
  | [] => true
  | Instr.send :: _ => false
  | Instr.done :: _ => true
  | Instr.serve _ :: rest => noSendBeforeDone rest

/-- Condition on the characters following a printed number so that the
maximal-munch number parser stops exactly at its end: the next character
(if any) is not a digit, a decimal point or an exponent marker.  In the
wire message a comma or closing brace follows every number. -/
def numStop : List Char → Prop
  | [] => True
  | c :: _ => c.isDigit = false ∧ c ≠ '.' ∧ c ≠ 'e' ∧ c ≠ 'E'

/-- Well-formed canonical number representation, as produced by the
parser: zero is (0, 0) with integer syntax, a nonzero mantissa is not
divisible by ten, and integer syntax implies a nonnegative exponent. -/
def jnumWF (m e : Int) (intLit : Bool) : Prop :=
  (m = 0 → e = 0 ∧ intLit = true) ∧ (m ≠ 0 → ¬((10 : Int) ∣ m)) ∧ (intLit = true → 0 ≤ e)

/-- Scalar JSON values (the value domain of the round-trip property):
null, booleans, well-formed numbers and strings. -/
def scalarWF : Json → Prop
  | .null => True
  | .bool _ => True
  | .num m e intLit => jnumWF m e intLit
  | .str _ => True
  | .arr _ => False
  | .obj _ => False

/-- Helper: the first colon of dev ++ colon ++ ch sits right after dev when
dev contains no colon, for any start index of the search. -/
theorem findIdx_colon_append (dev ch : List Char) (h : ∀ c ∈ dev, c ≠ ':') :
    ∀ i, List.findIdx? (fun c => c = ':') (dev ++ ':' :: ch) i = some (dev.length + i) := by
  induction dev with
  | nil => intro i; simp [List.findIdx?_cons]
  | cons c cs ih =>
    intro i
    have hc : ¬(c = ':') := h c (List.mem_cons_self c cs)
    have ih2 := ih (fun x hx => h x (List.mem_cons_of_mem c hx)) (i + 1)
    simp only [List.cons_append, List.findIdx?_cons, decide_eq_true_eq, if_neg hc, ih2,
      List.length_cons]
    congr 1
    omega

/-- Helper: splitting an address of the form dev ++ colon ++ ch with a
colon-free device part yields exactly (dev, ch). -/
theorem splitDeviceAddress_append (dev ch : List Char) (h : ∀ c ∈ dev, c ≠ ':') :
    splitDeviceAddress (dev ++ ':' :: ch) = some (dev, ch) := by
  unfold splitDeviceAddress
  rw [findIdx_colon_append dev ch h 0]
  simp only [Nat.add_zero, Option.some.injEq, Prod.mk.injEq]
  constructor
  · simp [List.take_left dev (':' :: ch)]
  · have := @List.drop_append Char dev (':' :: ch) 1
    simp at this
    simp [this]

/-- Helper: an address without any colon fails to split. -/
theorem splitDeviceAddress_none (address : List Char) (h : ∀ c ∈ address, c ≠ ':') :
    splitDeviceAddress address = none := by
  unfold splitDeviceAddress
  have : List.findIdx? (fun c => c = ':') address = none := by
    rw [List.findIdx?_eq_none_iff]
    intro x hx
    simpa using h x hx
  rw [this]

/-- C1: the translator raises the address-format error exactly when the
address contains no colon; an address of the form dev : rest (splitting at
the FIRST colon, so rest may itself contain further colons) is accepted
and produces the topic device/status/dev/rest/parameter together with the
current-time GOOD process value and the policy decision.  The original
claim also required an error for addresses with several colons; the code
accepts those (see the counterexample), splitting at the first colon. -/
theorem publishEvent_topic_amended (now : Int) (value : Json) (valueKey : List Char) :
    (∀ address, (∀ c ∈ address, c ≠ ':') →
      publishEventCore now address valueKey value =
        .error (str "Unexpected event from a device: " ++ address)) ∧
    (∀ dev ch, (∀ c ∈ dev, c ≠ ':') →
      publishEventCore now (dev ++ ':' :: ch) valueKey value =
        .ok (buildTopic dev ch valueKey, ⟨now, value, stateGood⟩,
             (selectQosRetain valueKey).1, (selectQosRetain valueKey).2)) := by
  constructor
  · intro address h
    unfold publishEventCore
    rw [splitDeviceAddress_none address h]
  · intro dev ch h
    unfold publishEventCore
    rw [splitDeviceAddress_append dev ch h]

/-- C1 counterexample: the address A:B:C contains two colons, yet
publishEvent does not raise an address-format error; it splits at the
first colon and publishes under device/status/A/B:C/STATE. -/
theorem publishEvent_topic_cx :
    publishEventCore 0 (str "A:B:C") (str "STATE") Json.null =
      .ok (str "device/status/A/B:C/STATE", ⟨0, Json.null, 0⟩, 1, true) := by rfl

/-- C1 witness: the well-formed address AABB1234:3 with parameter STATE
resolves to the topic device/status/AABB1234/3/STATE, and a colon-free
address errors. -/
theorem publishEvent_topic_witness :
    publishEventCore 5 (str "AABB1234" ++ ':' :: str "3") (str "STATE") (Json.bool true) =
      .ok (buildTopic (str "AABB1234") (str "3") (str "STATE"), ⟨5, Json.bool true, stateGood⟩,
           (selectQosRetain (str "STATE")).1, (selectQosRetain (str "STATE")).2) ∧
    buildTopic (str "AABB1234") (str "3") (str "STATE") = str "device/status/AABB1234/3/STATE" ∧
    publishEventCore 5 (str "AABB1234") (str "STATE") (Json.bool true) =
      .error (str "Unexpected event from a device: AABB1234") := by
  refine ⟨?_, by rfl, ?_⟩
  · exact (publishEvent_topic_amended 5 (Json.bool true) (str "STATE")).2 (str "AABB1234")
      (str "3") (by decide)
  · exact (publishEvent_topic_amended 5 (Json.bool true) (str "STATE")).1 (str "AABB1234")
      (by decide)

/-- C2: the publish decision is a pure function of the parameter name:
INSTALL_TEST and names starting with PRESS_ give exactly-once (2) without
retain, every other name gives at-least-once (1) with retain; repeated
evaluation trivially yields the same decision. -/
theorem selectQosRetain_policy (valueKey : List Char) :
    ((valueKey = str "INSTALL_TEST" ∨ (str "PRESS_").isPrefixOf valueKey = true) →
      selectQosRetain valueKey = (qosExactlyOnce, false)) ∧
    ((valueKey ≠ str "INSTALL_TEST" ∧ (str "PRESS_").isPrefixOf valueKey = false) →
      selectQosRetain valueKey = (qosAtLeastOnce, true)) ∧
    selectQosRetain valueKey = selectQosRetain valueKey := by
  refine ⟨?_, ?_, rfl⟩
  · intro h
    unfold selectQosRetain
    rcases h with h | h
    · rw [if_neg]; intro hcon; exact hcon.1 h
    · rw [if_neg]; intro hcon; exact hcon.2 h
  · intro h
    unfold selectQosRetain
    rw [if_pos]
    exact ⟨h.1, by rw [h.2]; simp⟩

/-- C2 witness: concrete decisions for a PRESS_ name, for INSTALL_TEST and
for an ordinary name. -/
theorem selectQosRetain_policy_witness :
    selectQosRetain (str "PRESS_SHORT") = (qosExactlyOnce, false) ∧
    selectQosRetain (str "INSTALL_TEST") = (qosExactlyOnce, false) ∧
    selectQosRetain (str "STATE") = (qosAtLeastOnce, true) := by
  refine ⟨?_, ?_, ?_⟩
  · exact (selectQosRetain_policy (str "PRESS_SHORT")).1 (Or.inr (by decide))
  · exact (selectQosRetain_policy (str "INSTALL_TEST")).1 (Or.inl (by decide))
  · exact (selectQosRetain_policy (str "STATE")).2.1 ⟨by decide, by decide⟩

/-- C3: the lenient decode is total: for every payload (empty, invalid or
arbitrary garbage) wireToPV returns a process value and never an error;
the only error exit of the source is the ReadAll of the in-memory buffer,
which cannot fail. -/
theorem wireToPV_total (now : Int) (payload : List Char) :
    ∃ pv, wireToPV now payload = .ok pv := by
  unfold wireToPV
  cases hds : decodeStream payload with
  | error e => exact ⟨lenientPV now payload, rfl⟩
  | ok wr =>
    obtain ⟨w, rest⟩ := wr
    by_cases h : (goTrimSpace (bufferedWindow payload).1).length ≠ 0 ∨
        (bufferedWindow payload).2 ≠ 0
    · exact ⟨lenientPV now payload, by simp only [readAllModel]; rw [if_pos h]⟩
    · exact ⟨mkPV now w, by simp only [readAllModel]; rw [if_neg h]⟩

/-- C7: chain forwarding invariant: whatever the publish outcomes at each
link are (including always-failing publishes), every handler of the chain
observes the full original notification sequence, unchanged and in
order. -/
theorem chain_forwarding {α : Type} (pub : Nat → List Char → PV → Nat → Bool → Option (List Char))
    (now : Nat → Int) (ns : List (Notification α)) (i : Nat) :
    observedAt pub now ns i = ns := by
  induction i with
  | zero => rfl
  | succ k ih =>
    have hstep : ∀ n : Notification α, (forwardOne (pub k) (now k) n).2 = n := by
      intro n; cases n <;> rfl
    calc observedAt pub now ns (k + 1)
        = (observedAt pub now ns k).map (fun n => (forwardOne (pub k) (now k) n).2) := rfl
      _ = ns.map (fun n => (forwardOne (pub k) (now k) n).2) := by rw [ih]
      _ = ns := by
          induction ns with
          | nil => rfl
          | cons hd tl ihn => simp [hstep, ihn]

/-- C10: EventReceiver.Event returns exactly what the next handler
returns, for every publish outcome (the publish error, including a
malformed address or any server failure, is only logged), and a failing
publish produces exactly the logged message. -/
theorem eventMethod_forwards (pub : List Char → PV → Nat → Bool → Option (List Char)) (now : Int)
    (next : List Char → List Char → List Char → Json → Option (List Char))
    (iid address valueKey : List Char) (value : Json) :
    (eventMethod pub now next iid address valueKey value).2 = next iid address valueKey value ∧
    (∀ e, publishEvent pub now iid address valueKey value = some e →
      (eventMethod pub now next iid address valueKey value).1 =
        [str "Publish of event failed: " ++ e]) := by
  constructor
  · rfl
  · intro e h
    unfold eventMethod
    rw [h]

/-- C10 witness: with a malformed address the publish fails, the failure
is logged, and Event still returns the next handler's result. -/
theorem eventMethod_forwards_witness :
    (eventMethod (fun _ _ _ _ => none) 0 (fun _ _ _ _ => some (str "next says no"))
        (str "itf") (str "NOCOLON") (str "STATE") Json.null).2 = some (str "next says no") ∧
    (eventMethod (fun _ _ _ _ => none) 0 (fun _ _ _ _ => some (str "next says no"))
        (str "itf") (str "NOCOLON") (str "STATE") Json.null).1 =
      [str "Publish of event failed: " ++ str "Unexpected event from a device: NOCOLON"] := by
  constructor
  · exact (eventMethod_forwards (fun _ _ _ _ => none) 0 (fun _ _ _ _ => some (str "next says no"))
      (str "itf") (str "NOCOLON") (str "STATE") Json.null).1
  · exact (eventMethod_forwards (fun _ _ _ _ => none) 0 (fun _ _ _ _ => some (str "next says no"))
      (str "itf") (str "NOCOLON") (str "STATE") Json.null).2
      (str "Unexpected event from a device: NOCOLON") (by rfl)

/-- Helper: a member accepted by the strict field decoder fold-matches one
of the wirePV field names ts, v, s. -/
theorem applyField_name (acc acc2 : WireRec) (n : List Char) (v : Json)
    (h : applyField acc n v = .ok acc2) :
    foldEq n (str "ts") = true ∨ foldEq n (str "v") = true ∨ foldEq n (str "s") = true := by
  by_cases h1 : foldEq n (str "ts") = true
  · exact Or.inl h1
  by_cases h2 : foldEq n (str "v") = true
  · exact Or.inr (Or.inl h2)
  by_cases h3 : foldEq n (str "s") = true
  · exact Or.inr (Or.inr h3)
  · exfalso
    unfold applyField at h
    rw [if_neg h1, if_neg h2, if_neg h3] at h
    exact Except.noConfusion h

/-- Helper: every member of an object accepted by the strict decoder
fold-matches ts, v or s. -/
theorem applyFields_names (membs : List (List Char × Json)) :
    ∀ acc w, applyFields acc membs = .ok w →
      ∀ p ∈ membs, foldEq p.1 (str "ts") = true ∨ foldEq p.1 (str "v") = true ∨
        foldEq p.1 (str "s") = true := by
  induction membs with
  | nil => intro acc w _ p hp; exact absurd hp (List.not_mem_nil p)
  | cons hd tl ih =>
    intro acc w h p hp
    obtain ⟨n, v⟩ := hd
    unfold applyFields at h
    cases hf : applyField acc n v with
    | error e => rw [hf] at h; exact Except.noConfusion h
    | ok acc2 =>
      rw [hf] at h
      rcases List.mem_cons.mp hp with hp1 | hp2
      · subst hp1; exact applyField_name acc acc2 n v hf
      · exact ih acc2 w h p hp2

/-- Helper: a field that does not fold-match s leaves the state
unchanged. -/
theorem applyField_state (acc acc2 : WireRec) (n : List Char) (v : Json)
    (hs : foldEq n (str "s") = false) (h : applyField acc n v = .ok acc2) :
    acc2.state = acc.state := by
  by_cases h1 : foldEq n (str "ts") = true
  · cases v with
    | null =>
      simp only [applyField, h1, if_true] at h
      cases h; rfl
    | num m e intLit =>
      cases hj : jnumInt m e intLit with
      | none =>
        simp only [applyField, h1, if_true, hj] at h
        exact Except.noConfusion h
      | some k =>
        simp only [applyField, h1, if_true, hj, Except.ok.injEq] at h
        rw [← h]
    | bool b =>
      simp only [applyField, h1, if_true] at h
      exact Except.noConfusion h
    | str s =>
      simp only [applyField, h1, if_true] at h
      exact Except.noConfusion h
    | arr l =>
      simp only [applyField, h1, if_true] at h
      exact Except.noConfusion h
    | obj l =>
      simp only [applyField, h1, if_true] at h
      exact Except.noConfusion h
  · by_cases h2 : foldEq n (str "v") = true
    · simp only [applyField, h1, h2, if_true, if_false, Bool.false_eq_true, Except.ok.injEq] at h
      rw [← h]
    · simp only [applyField, h1, h2, hs, if_false, Bool.false_eq_true, Except.ok.injEq] at h
      exact Except.noConfusion h

/-- Helper: when no member fold-matches s, the decoded wirePV keeps the
state of the accumulator (so the zero value: GOOD). -/
theorem applyFields_state (membs : List (List Char × Json)) :
    ∀ acc w, (∀ p ∈ membs, foldEq p.1 (str "s") = false) →
      applyFields acc membs = .ok w → w.state = acc.state := by
  induction membs with
  | nil => intro acc w _ h; cases h; rfl
  | cons hd tl ih =>
    intro acc w hno h
    obtain ⟨n, v⟩ := hd
    unfold applyFields at h
    cases hf : applyField acc n v with
    | error e => rw [hf] at h; exact Except.noConfusion h
    | ok acc2 =>
      rw [hf] at h
      have h1 : acc2.state = acc.state :=
        applyField_state acc acc2 n v (hno (n, v) (List.mem_cons_self _ _)) hf
      have h2 : w.state = acc2.state :=
        ih acc2 w (fun p hp => hno p (List.mem_cons_of_mem _ hp)) h
      rw [h2, h1]

/-- C4 amended: the three tiers are attempted in the fixed order strict,
generic, string.  The strict tier applies only when the first JSON value
of the payload decodes as wirePV: it is null, or an object each of whose
member names fold-matches ts, v or s (encoding/json matches field names
case-insensitively, including the long s U+017F against the names
containing s, so TS and \u017F are matches, not unknown fields), and the
decoder's buffered read window past the value trims to nothing; the
window covers only the chunked reads (512, 1536, ... bytes), so trailing
content beyond the read boundary is never inspected.  When the strict
tier is rejected (decode error or non-whitespace in the window), the
whole payload is re-parsed as one generic JSON value; if that succeeds
the parsed value becomes the process value's value, and if it also fails
the whole payload verbatim becomes a string value. -/
theorem wireToPV_tiers_amended (now : Int) (payload : List Char) :
    ((∀ e, decodeStream payload = .error e →
        (∀ v, unmarshalWhole payload = .ok v → wireToPV now payload = .ok ⟨now, v, 0⟩) ∧
        (∀ e2, unmarshalWhole payload = .error e2 →
          wireToPV now payload = .ok ⟨now, Json.str payload, 0⟩)) ∧
     (∀ w rest, decodeStream payload = .ok (w, rest) →
        (goTrimSpace (bufferedWindow payload).1).length ≠ 0 ∨ (bufferedWindow payload).2 ≠ 0 →
        (∀ v, unmarshalWhole payload = .ok v → wireToPV now payload = .ok ⟨now, v, 0⟩) ∧
        (∀ e2, unmarshalWhole payload = .error e2 →
          wireToPV now payload = .ok ⟨now, Json.str payload, 0⟩))) ∧
    (∀ j rest w rest2, goParse payload = .ok (j, rest) → decodeStream payload = .ok (w, rest2) →
       (j = Json.null ∨ ∃ membs, j = Json.obj membs ∧
         ∀ p ∈ membs, foldEq p.1 (str "ts") = true ∨ foldEq p.1 (str "v") = true ∨
           foldEq p.1 (str "s") = true)) := by
  constructor
  · constructor
    · intro e hds
      constructor
      · intro v hu
        unfold wireToPV
        rw [hds]
        unfold lenientPV
        rw [hu]
        simp [mkPV]
      · intro e2 hu
        unfold wireToPV
        rw [hds]
        unfold lenientPV
        rw [hu]
        simp [mkPV]
    · intro w rest hds htrim
      constructor
      · intro v hu
        unfold wireToPV
        rw [hds]
        simp only [readAllModel]
        rw [if_pos htrim]
        unfold lenientPV
        rw [hu]
        simp [mkPV]
      · intro e2 hu
        unfold wireToPV
        rw [hds]
        simp only [readAllModel]
        rw [if_pos htrim]
        unfold lenientPV
        rw [hu]
        simp [mkPV]
  · intro j rest w rest2 hgp hds
    unfold decodeStream at hds
    simp only [hgp] at hds
    have hok : jsonToWire j = .ok w := by
      cases hj : jsonToWire j with
      | error e => rw [hj] at hds; exact Except.noConfusion hds
      | ok w2 =>
        rw [hj] at hds
        simp only [Except.map, Except.ok.injEq, Prod.mk.injEq] at hds
        rw [hds.1]
    cases j with
    | null => exact Or.inl rfl
    | obj membs =>
      refine Or.inr ⟨membs, rfl, ?_⟩
      unfold jsonToWire at hok
      exact applyFields_names membs {} w hok
    | bool b => exact Except.noConfusion hok
    | num m e i => exact Except.noConfusion hok
    | str s => exact Except.noConfusion hok
    | arr l => exact Except.noConfusion hok

set_option maxRecDepth 100000 in
/-- C4 counterexample: the claim fails in three ways.  First, the payload
with single top-level field TS is accepted by the strict tier through
case-insensitive matching (ts = 1 applied, 1 ms after the epoch, not the
generic object value with timestamp now = 99 the claim requires for an
unknown field); the long s U+017F likewise strict-matches the field s and
sets the state.  Second, an object followed by trailing garbage inside
the read window is rejected by the strict tier, but the whole payload
does NOT become a parsed generic JSON value: the generic re-parse fails
too, and the value is the raw payload string.  Third, when the garbage
sits past the 512-byte read boundary the decoder never sees it: the
strict tier accepts even though the payload has trailing
non-whitespace. -/
theorem wireToPV_tiers_cx :
    wireToPV 99 (str "\x7b\"TS\":1\x7d") = .ok ⟨1000000, Json.null, 0⟩ ∧
    wireToPV 99 (str "\x7b\"\u017F\":1\x7d") = .ok ⟨99, Json.null, 1⟩ ∧
    wireToPV 99 (str "\x7b\"ts\":1\x7d x") = .ok ⟨99, Json.str (str "\x7b\"ts\":1\x7d x"), 0⟩ ∧
    wireToPV 99 (str "\x7b\"ts\":1\x7d" ++ List.replicate 600 ' ' ++ str "x") =
      .ok ⟨1000000, Json.null, 0⟩ := by
  refine ⟨rfl, rfl, rfl, rfl⟩

/-- C4 witness: a payload with an unknown (non-fold-matching) top-level
field is rejected by the strict tier and its generic re-parse becomes the
value. -/
theorem wireToPV_tiers_witness :
    wireToPV 99 (str "\x7b\"x\":1\x7d") = .ok ⟨99, Json.obj [(['x'], Json.num 1 0 true)], 0⟩ ∧
    wireToPV 99 (str "nonsense") = .ok ⟨99, Json.str (str "nonsense"), 0⟩ := by
  constructor
  · exact ((wireToPV_tiers_amended 99 (str "\x7b\"x\":1\x7d")).1.1
      (str "unknown field") (by rfl)).1 (Json.obj [(['x'], Json.num 1 0 true)]) (by rfl)
  · exact ((wireToPV_tiers_amended 99 (str "nonsense")).1.1
      (str "invalid character in literal") (by rfl)).2
      (str "invalid character in literal") (by rfl)

/-- C5 amended: when the strict tier succeeds (and the decoder's buffered
read window trims to empty), the result carries the strict wirePV
verbatim: timestamp now when ts is zero, otherwise ts * 1000000
nanoseconds WRAPPED in int64 arithmetic — which equals ts interpreted as
milliseconds since the epoch exactly when ts * 1000000 fits in int64 (the
original claim omitted the wrap, see the counterexample); the state is
the decoded s field, which stays GOOD (0) when no member fold-matches s
(fold-matching includes case folding and the long s U+017F).  When any
lower tier is used, the timestamp is now and the state GOOD. -/
theorem wireToPV_time_state_amended (now : Int) (payload : List Char) :
    (∀ w rest, decodeStream payload = .ok (w, rest) →
      (goTrimSpace (bufferedWindow payload).1).length = 0 → (bufferedWindow payload).2 = 0 →
      wireToPV now payload =
        .ok ⟨if w.time = 0 then now else wrap64 (w.time * 1000000), w.value, w.state⟩) ∧
    (∀ e, decodeStream payload = .error e → ∃ v, wireToPV now payload = .ok ⟨now, v, 0⟩) ∧
    (∀ w rest, decodeStream payload = .ok (w, rest) →
      (goTrimSpace (bufferedWindow payload).1).length ≠ 0 ∨ (bufferedWindow payload).2 ≠ 0 →
      ∃ v, wireToPV now payload = .ok ⟨now, v, 0⟩) ∧
    (∀ t : Int, int64Min ≤ t * 1000000 → t * 1000000 ≤ int64Max →
      wrap64 (t * 1000000) = t * 1000000) ∧
    (∀ membs w, (∀ p ∈ membs, foldEq p.1 (str "s") = false) →
      jsonToWire (Json.obj membs) = .ok w → w.state = 0) := by
  refine ⟨?_, ?_, ?_, ?_, ?_⟩
  · intro w rest hds htrim hpart
    unfold wireToPV
    simp only [hds, readAllModel]
    rw [if_neg (by simp [htrim, hpart])]
    simp [mkPV]
  · intro e hds
    refine ⟨(lenientPV now payload).value, ?_⟩
    unfold wireToPV
    simp only [hds]
    unfold lenientPV
    cases hu : unmarshalWhole payload <;> simp [mkPV]
  · intro w rest hds htrim
    refine ⟨(lenientPV now payload).value, ?_⟩
    unfold wireToPV
    simp only [hds, readAllModel, if_pos htrim]
    unfold lenientPV
    cases hu : unmarshalWhole payload <;> simp [mkPV]
  · intro t h1 h2
    unfold int64Min at h1
    unfold int64Max at h2
    unfold wrap64
    have hlow : (0 : Int) ≤ t * 1000000 + 9223372036854775808 := by omega
    have hhigh : t * 1000000 + 9223372036854775808 < 18446744073709551616 := by omega
    rw [Int.emod_eq_of_lt hlow hhigh]
    omega
  · intro membs w hno h
    unfold jsonToWire at h
    have := applyFields_state membs {} w hno h
    simpa using this

/-- C5 counterexample: the payload with ts = 10000000000000 (a valid
millisecond timestamp in the year 2286, within int64 both as milliseconds
and as parsed literal) decodes to the WRAPPED nanosecond value
-8446744073709551616 (around the year 1702), not to
10000000000000 * 1000000 nanoseconds as the claim requires: the source
multiplies w.Time by 1000000 in int64, which overflows and wraps. -/
theorem wireToPV_time_cx :
    wireToPV 3 (str "\x7b\"ts\":10000000000000\x7d") =
      .ok ⟨-8446744073709551616, Json.null, 0⟩ ∧
    (-8446744073709551616 : Int) ≠ 10000000000000 * 1000000 := by
  exact ⟨by rfl, by decide⟩

/-- C5 witness: the amended theorem applied to a strict payload with
nonzero in-range ts (timestamp 2 ms = 2000000 ns), to a garbage payload
(timestamp now, state GOOD), and the in-range wrap identity at t = 2. -/
theorem wireToPV_time_state_witness :
    wireToPV 7 (str "\x7b\"ts\":2\x7d") = .ok ⟨2000000, Json.null, 0⟩ ∧
    (∃ v, wireToPV 7 (str "nonsense") = .ok ⟨7, v, 0⟩) ∧
    wrap64 (2 * 1000000) = 2 * 1000000 := by
  refine ⟨?_, ?_, ?_⟩
  · have h := (wireToPV_time_state_amended 7 (str "\x7b\"ts\":2\x7d")).1
      ⟨2, Json.null, 0⟩ [] (by rfl) (by rfl) (by rfl)
    simpa using h
  · exact (wireToPV_time_state_amended 7 (str "nonsense")).2.1
      (str "invalid character in literal") (by rfl)
  · exact (wireToPV_time_state_amended 7 []).2.2.2.1 2 (by decide) (by decide)

/-- Helper: replacing the element at a position changes a mapped sum by
swapping the contribution of the old element for the new one. -/
theorem sum_map_set (f : List Instr → Nat) (l : List (List Instr)) :
    ∀ (i : Nat) (a b : List Instr), l.get? i = some a →
      (((l.set i b).map f).sum + f a = (l.map f).sum + f b) := by
  induction l with
  | nil => intro i a b h; exact Option.noConfusion h
  | cons hd tl ih =>
    intro i a b h
    cases i with
    | zero =>
      cases h
      simp only [List.set_cons_zero, List.map_cons, List.sum_cons]
      omega
    | succ j =>
      have := ih j a b h
      simp only [List.set_cons_succ, List.map_cons, List.sum_cons]
      omega

/-- Helper: one machine step preserves the WaitGroup invariant. -/
theorem mstep_counterInv (recv : Bool) (s s2 : SysState) (h : MStep recv s s2)
    (hinv : counterInv s) : counterInv s2 := by
  cases h with
  | close => exact hinv
  | exec i instr rest htask hen =>
    unfold counterInv at hinv ⊢
    have hsum := sum_map_set doneCount s.tasks i (instr :: rest) rest htask
    cases instr with
    | serve fails =>
      have hd : doneCount (Instr.serve fails :: rest) = doneCount rest := by
        simp [doneCount]
      simp only [applyInstr]
      omega
    | done =>
      have hd : doneCount (Instr.done :: rest) = doneCount rest + 1 := by
        simp [doneCount]
      simp only [applyInstr]
      omega
    | send =>
      have hd : doneCount (Instr.send :: rest) = doneCount rest := by
        simp [doneCount]
      simp only [applyInstr]
      omega

/-- Helper: the WaitGroup invariant is preserved along every execution. -/
theorem msteps_counterInv (recv : Bool) (s s2 : SysState) (h : MSteps recv s s2)
    (hinv : counterInv s) : counterInv s2 := by
  induction h with
  | refl => exact hinv
  | tail _ hstep ih => exact mstep_counterInv recv _ _ hstep ih

/-- C8 amended: (1) right after Start the WaitGroup counter equals the
number of pending Done signals (each listener task contains exactly one);
(2) the equality is preserved by every step, so Stop's Wait returns
exactly when every spawned task has signalled the wait group — not
necessarily when it has fully terminated, since the error send comes
after Done (see the counterexample); (3) for every configuration with
both listeners, in particular with a failed certificate load, once Close
has been issued every task can reach its Done without any consumer on the
error channel, so the counter reaches zero and Stop returns; (4) the
plain listener task is spawned with a body independent of the certificate
outcome. -/
theorem mqttStop_amended :
    (∀ a b att c p t, counterInv (mqttStart a b att c p t)) ∧
    (∀ recv s s2, MSteps recv s s2 → counterInv s → counterInv s2) ∧
    (∀ recv att certOk pf tf, ∃ s2,
      MSteps recv { mqttStart true true att certOk pf tf with closed := true } s2 ∧
      s2.counter = 0) ∧
    (∀ att certOk pf tf,
      (mqttStart true true att certOk pf tf).tasks.get? 0 = some (plainProg att pf)) := by
  refine ⟨?_, msteps_counterInv, ?_, by decide⟩
  · intro a b att c p t
    cases a <;> cases b <;> cases att <;> cases c <;> cases p <;> cases t <;> rfl
  intro recv att certOk pf tf
  cases certOk with
  | false =>
    refine ⟨{ tasks := [if pf && att then [Instr.send] else [],
                        if att then [Instr.send] else []],
              counter := 0, closed := true, delivered := 0 }, ?_, rfl⟩
    exact Relation.ReflTransGen.head
        (MStep.exec _ 0 (Instr.serve pf) (Instr.done :: (if pf && att then [Instr.send] else []))
          rfl (by simp [instrEnabled, applyInstr, mqttStart]))
        (Relation.ReflTransGen.head
          (MStep.exec _ 0 Instr.done (if pf && att then [Instr.send] else []) rfl rfl)
          (Relation.ReflTransGen.head
            (MStep.exec _ 1 Instr.done (if att then [Instr.send] else []) rfl rfl)
            Relation.ReflTransGen.refl))
  | true =>
    refine ⟨{ tasks := [if pf && att then [Instr.send] else [],
                        if tf && att then [Instr.send] else []],
              counter := 0, closed := true, delivered := 0 }, ?_, rfl⟩
    exact Relation.ReflTransGen.head
        (MStep.exec _ 0 (Instr.serve pf) (Instr.done :: (if pf && att then [Instr.send] else []))
          rfl (by simp [instrEnabled, applyInstr, mqttStart]))
        (Relation.ReflTransGen.head
          (MStep.exec _ 0 Instr.done (if pf && att then [Instr.send] else []) rfl rfl)
          (Relation.ReflTransGen.head
            (MStep.exec _ 1 (Instr.serve tf) (Instr.done :: (if tf && att then [Instr.send] else []))
              rfl (by simp [instrEnabled, applyInstr, mqttStart]))
            (Relation.ReflTransGen.head
              (MStep.exec _ 1 Instr.done (if tf && att then [Instr.send] else []) rfl rfl)
              Relation.ReflTransGen.refl)))

/-- C8 counterexample: with both listeners configured, an attached error
channel, a failing certificate load and no consumer ready, the system
reaches a state whose WaitGroup counter is zero — Stop's Wait returns —
while the secure listener task still has its blocking error send pending,
so Stop does not wait for every task to have FULLY terminated. -/
theorem mqttStop_cx :
    MSteps false (mqttStart true true true false false false)
      { tasks := [[], [Instr.send]], counter := 0, closed := true, delivered := 0 } ∧
    ({ tasks := [[], [Instr.send]], counter := 0, closed := true, delivered := 0 } :
      SysState).counter = 0 ∧
    ({ tasks := [[], [Instr.send]], counter := 0, closed := true, delivered := 0 } :
      SysState).tasks.get? 1 = some [Instr.send] := by
  refine ⟨?_, rfl, rfl⟩
  exact Relation.ReflTransGen.head
    (MStep.close _)
    (Relation.ReflTransGen.head
      (MStep.exec _ 1 Instr.done [Instr.send] rfl rfl)
      (Relation.ReflTransGen.head
        (MStep.exec _ 0 (Instr.serve false) [Instr.done] rfl rfl)
        (Relation.ReflTransGen.head
          (MStep.exec _ 0 Instr.done [] rfl rfl)
          Relation.ReflTransGen.refl)))

/-- C8 witness: the amended theorem instantiated at the certificate
failure configuration: the initial invariant holds, and from the closed
start a state with counter zero is reachable. -/
theorem mqttStop_witness :
    counterInv (mqttStart true true true false false false) ∧
    (∃ s2, MSteps false { mqttStart true true true false false false with closed := true } s2 ∧
      s2.counter = 0) := by
  exact ⟨mqttStop_amended.1 true true true false false false,
    mqttStop_amended.2.2.1 false true false false false⟩

/-- C9 amended: (1) every terminal listener failure path contains exactly
one error send when an error channel is attached, and none when it is not
(errors are silently dropped without a channel); (2) in every task body
the wait-group signal precedes any send, so the (possibly blocking) send
never delays Stop; (3) when a consumer is ready, a pending send can
always execute at once and delivers exactly one error — so no failure is
dropped with an attached, consuming channel.  The original claim that the
reporting NEVER blocks the listener task is false: the send is a plain
blocking channel send, and without a ready consumer the task stays
blocked (see the counterexample). -/
theorem serveErr_amended :
    (∀ att p, (plainProg att p).count Instr.send = (if p && att then 1 else 0)) ∧
    (∀ att c t, (tlsProg att c t).count Instr.send =
      (if c then (if t && att then 1 else 0) else (if att then 1 else 0))) ∧
    (∀ att p, noSendBeforeDone (plainProg att p) = true) ∧
    (∀ att c t, noSendBeforeDone (tlsProg att c t) = true) ∧
    (∀ s i rest, s.tasks.get? i = some (Instr.send :: rest) →
      MStep true s (applyInstr s i Instr.send rest) ∧
      (applyInstr s i Instr.send rest).delivered = s.delivered + 1) := by
  refine ⟨by decide, by decide, by decide, by decide, ?_⟩
  intro s i rest h
  exact ⟨MStep.exec s i Instr.send rest h rfl, rfl⟩

/-- C9 counterexample: with only the secure listener configured, an
attached error channel, a failing certificate load and no ready consumer,
the system reaches a state in which the listener task's next action is
the error send and that send is not enabled: the reporting blocks the
listener task, contradicting the claim that reporting never blocks. -/
theorem serveErr_cx :
    MSteps false (mqttStart false true true false false false)
      { tasks := [[Instr.send]], counter := 0, closed := true, delivered := 0 } ∧
    ({ tasks := [[Instr.send]], counter := 0, closed := true, delivered := 0 } :
      SysState).tasks.get? 0 = some [Instr.send] ∧
    instrEnabled false true Instr.send = false := by
  refine ⟨?_, rfl, rfl⟩
  exact Relation.ReflTransGen.head
    (MStep.close _)
    (Relation.ReflTransGen.head
      (MStep.exec _ 0 Instr.done [Instr.send] rfl rfl)
      Relation.ReflTransGen.refl)

/-- C9 witness: the amended theorem instantiated at the certificate
failure path with a ready consumer: the pending send executes and
delivers the error. -/
theorem serveErr_witness :
    (tlsProg true false false).count Instr.send = 1 ∧
    noSendBeforeDone (tlsProg true false false) = true ∧
    (MStep true
      ({ tasks := [[Instr.send]], counter := 0, closed := true, delivered := 0 } : SysState)
      (applyInstr { tasks := [[Instr.send]], counter := 0, closed := true, delivered := 0 }
        0 Instr.send []) ∧
     (applyInstr { tasks := [[Instr.send]], counter := 0, closed := true, delivered := 0 }
        0 Instr.send []).delivered =
       ({ tasks := [[Instr.send]], counter := 0, closed := true, delivered := 0 } :
         SysState).delivered + 1) := by
  refine ⟨?_, ?_, ?_⟩
  · exact serveErr_amended.2.1 true false false
  · exact serveErr_amended.2.2.2.1 true false false
  · exact serveErr_amended.2.2.2.2
      { tasks := [[Instr.send]], counter := 0, closed := true, delivered := 0 } 0 [] rfl

/-- Helper: Char.ofNat below the surrogate range keeps the code point. -/
theorem toNat_ofNat_small (n : Nat) (h : n < 55296) : (Char.ofNat n).toNat = n := by
  have hv : n.isValidChar := by left; exact_mod_cast h
  simp [Char.ofNat, hv, Char.ofNatAux, Char.toNat, UInt32.toNat, BitVec.toNat_ofNatLt]

/-- Helper: code point of a digit character. -/
theorem digitChar_toNat (d : Nat) (h : d < 10) : (digitChar d).toNat = 48 + d :=
  toNat_ofNat_small (48 + d) (by omega)

/-- Helper: digit characters satisfy isDigit. -/
theorem digitChar_isDigit (d : Nat) (h : d < 10) : (digitChar d).isDigit = true := by
  interval_cases d <;> decide

/-- Helper: the digit character of a nonzero digit is not the zero
character. -/
theorem digitChar_ne_zero (d : Nat) (h : d < 10) (h2 : d ≠ 0) : digitChar d ≠ '0' := by
  interval_cases d <;> simp_all <;> decide

/-- Helper: digit characters are not JSON whitespace and differ from the
syntax characters the parsers dispatch on. -/
theorem digitChar_not_special (d : Nat) (h : d < 10) :
    jsonWS (digitChar d) = false ∧ digitChar d ≠ '-' ∧ digitChar d ≠ '+' ∧
    digitChar d ≠ '.' ∧ digitChar d ≠ 'e' ∧ digitChar d ≠ 'E' ∧ digitChar d ≠ '"' ∧
    digitChar d ≠ '\x7b' ∧ digitChar d ≠ '[' ∧ digitChar d ≠ 't' ∧ digitChar d ≠ 'f' ∧
    digitChar d ≠ 'n' := by
  interval_cases d <;> exact ⟨by decide, by decide, by decide, by decide, by decide, by decide,
    by decide, by decide, by decide, by decide, by decide, by decide⟩

/-- Helper: natDigitsF does not depend on the fuel once it exceeds the
number. -/
theorem natDigitsF_suff (n : Nat) : ∀ f g, n < f → n < g → natDigitsF f n = natDigitsF g n := by
  induction n using Nat.strong_induction_on with
  | _ n ih =>
    intro f g hf hg
    obtain ⟨f2, rfl⟩ : ∃ f2, f = f2 + 1 := ⟨f - 1, by omega⟩
    obtain ⟨g2, rfl⟩ : ∃ g2, g = g2 + 1 := ⟨g - 1, by omega⟩
    by_cases h10 : n < 10
    · simp [natDigitsF, h10]
    · have hlt : n / 10 < n := Nat.div_lt_self (by omega) (by omega)
      simp only [natDigitsF, h10, if_false]
      rw [ih (n / 10) hlt f2 g2 (by omega) (by omega)]

/-- Helper: the unfolding equation of natDigits. -/
theorem natDigits_eq (n : Nat) :
    natDigits n = if n < 10 then [digitChar n] else natDigits (n / 10) ++ [digitChar (n % 10)] := by
  by_cases h10 : n < 10
  · rw [if_pos h10]
    unfold natDigits
    simp [natDigitsF, h10]
  · rw [if_neg h10]
    have h1 : natDigits n = natDigitsF n (n / 10) ++ [digitChar (n % 10)] := by
      unfold natDigits
      simp [natDigitsF, h10]
    rw [h1]
    have hlt := Nat.div_lt_self (show 0 < n by omega) (show 1 < 10 by omega)
    have h2 : natDigitsF n (n / 10) = natDigits (n / 10) := by
      unfold natDigits
      exact natDigitsF_suff (n / 10) n (n / 10 + 1) (by omega) (by omega)
    rw [h2]

/-- Helper: digit lists are never empty. -/
theorem natDigits_ne_nil (n : Nat) : natDigits n ≠ [] := by
  rw [natDigits_eq]
  by_cases h10 : n < 10
  · simp [h10]
  · simp [h10]

/-- Helper: every character of a digit list is a digit. -/
theorem natDigits_all_digits (n : Nat) : ∀ c ∈ natDigits n, c.isDigit = true := by
  induction n using Nat.strong_induction_on with
  | _ n ih =>
    intro c hc
    rw [natDigits_eq] at hc
    by_cases h10 : n < 10
    · rw [if_pos h10] at hc
      simp at hc
      subst hc
      exact digitChar_isDigit n h10
    · rw [if_neg h10] at hc
      rcases List.mem_append.mp hc with h1 | h2
      · exact ih (n / 10) (Nat.div_lt_self (by omega) (by omega)) c h1
      · simp at h2
        subst h2
        exact digitChar_isDigit (n % 10) (Nat.mod_lt n (by omega))

/-- Helper: the leading digit of a positive number is not the zero
character. -/
theorem natDigits_head_ne_zero (n : Nat) : 1 ≤ n → ∀ c t, natDigits n = c :: t → c ≠ '0' := by
  induction n using Nat.strong_induction_on with
  | _ n ih =>
    intro hn c t hct
    rw [natDigits_eq] at hct
    by_cases h10 : n < 10
    · rw [if_pos h10] at hct
      cases hct
      exact digitChar_ne_zero n h10 (by omega)
    · rw [if_neg h10] at hct
      have hne := natDigits_ne_nil (n / 10)
      cases hnd : natDigits (n / 10) with
      | nil => exact absurd hnd hne
      | cons c2 t2 =>
        rw [hnd] at hct
        simp only [List.cons_append, List.cons.injEq] at hct
        have hd : 1 ≤ n / 10 := Nat.one_le_div_iff (by omega) |>.mpr (by omega)
        have := ih (n / 10) (Nat.div_lt_self (by omega) (by omega)) hd c2 t2 hnd
        rw [hct.1] at this
        exact this

/-- Helper: digits of a number with trailing zero factors. -/
theorem natDigits_mul_pow10 (m : Nat) (hm : 1 ≤ m) :
    ∀ k, natDigits (m * 10 ^ k) = natDigits m ++ List.replicate k '0' := by
  intro k
  induction k with
  | zero => simp
  | succ j ih =>
    have hge : ¬(m * 10 ^ (j + 1) < 10) := by
      have : 10 ^ (j + 1) ≥ 10 := by
        calc 10 ^ (j + 1) = 10 ^ j * 10 := by ring
        _ ≥ 1 * 10 := by
          have : 1 ≤ 10 ^ j := Nat.one_le_pow j 10 (by omega)
          omega
      have : m * 10 ^ (j + 1) ≥ 1 * 10 := Nat.mul_le_mul hm (by omega)
      omega
    rw [natDigits_eq, if_neg hge]
    have hdiv : m * 10 ^ (j + 1) / 10 = m * 10 ^ j := by
      rw [show m * 10 ^ (j + 1) = m * 10 ^ j * 10 by ring]
      exact Nat.mul_div_cancel _ (by omega)
    have hmod : m * 10 ^ (j + 1) % 10 = 0 := by
      rw [show m * 10 ^ (j + 1) = m * 10 ^ j * 10 by ring]
      exact Nat.mul_mod_left _ _
    rw [hdiv, hmod, ih]
    rw [show (List.replicate (j + 1) '0' : List Char) = List.replicate j '0' ++ ['0'] from
      List.replicate_succ' ..]
    rw [show digitChar 0 = '0' by decide]
    simp

/-- Helper: folding the digit list of a number into the running
accumulator. -/
theorem digitsLoopCnt_digits (n : Nat) :
    ∀ acc cnt rest, digitsLoopCnt acc cnt (natDigits n ++ rest) =
      digitsLoopCnt (acc * 10 ^ (natDigits n).length + n) (cnt + (natDigits n).length) rest := by
  induction n using Nat.strong_induction_on with
  | _ n ih =>
    intro acc cnt rest
    by_cases h10 : n < 10
    · rw [natDigits_eq, if_pos h10]
      simp only [List.cons_append, List.nil_append, List.length_cons, List.length_nil]
      unfold digitsLoopCnt
      rw [if_pos (digitChar_isDigit n h10), digitChar_toNat n h10]
      have h1 : 10 * acc + (48 + n - 48) = acc * 10 ^ (0 + 1) + n := by
        simp
        omega
      rw [h1]
      cases rest <;> rfl
    · rw [natDigits_eq, if_neg h10]
      have hmod := Nat.mod_lt n (show 0 < 10 by omega)
      rw [List.append_assoc, List.cons_append, List.nil_append]
      rw [ih (n / 10) (Nat.div_lt_self (by omega) (by omega)) acc cnt]
      unfold digitsLoopCnt
      rw [if_pos (digitChar_isDigit (n % 10) hmod), digitChar_toNat (n % 10) hmod]
      have hlen : (natDigits (n / 10) ++ [digitChar (n % 10)]).length =
          (natDigits (n / 10)).length + 1 := by simp
      rw [hlen]
      have hdm := Nat.div_add_mod n 10
      have h1 : 10 * (acc * 10 ^ (natDigits (n / 10)).length + n / 10) + (48 + n % 10 - 48) =
          acc * 10 ^ ((natDigits (n / 10)).length + 1) + n := by
        have h2 : (48 : Nat) + n % 10 - 48 = n % 10 := by omega
        rw [h2, pow_succ]
        ring_nf
        omega
      rw [h1]
      have h3 : cnt + (natDigits (n / 10)).length + 1 =
          cnt + ((natDigits (n / 10)).length + 1) := by omega
      rw [h3]
      cases rest <;> rfl

/-- Helper: folding a run of zero characters multiplies the accumulator by
the matching power of ten. -/
theorem digitsLoopCnt_zeros (k : Nat) :
    ∀ acc cnt rest, digitsLoopCnt acc cnt (List.replicate k '0' ++ rest) =
      digitsLoopCnt (acc * 10 ^ k) (cnt + k) rest := by
  induction k with
  | zero => intro acc cnt rest; simp
  | succ j ih =>
    intro acc cnt rest
    rw [List.replicate_succ, List.cons_append]
    unfold digitsLoopCnt
    rw [if_pos (show ('0' : Char).isDigit = true by decide)]
    rw [show ('0' : Char).toNat - 48 = 0 by decide]
    rw [ih]
    have h1 : (10 * acc + 0) * 10 ^ j = acc * 10 ^ (j + 1) := by
      rw [pow_succ]
      ring
    rw [h1]
    have h2 : cnt + 1 + j = cnt + (j + 1) := by omega
    rw [h2]
    cases rest <;> rfl

/-- Helper: the digit loop stops at a non-digit head. -/
theorem digitsLoopCnt_stop (acc cnt : Nat) (rest : List Char)
    (h : ∀ c t, rest = c :: t → c.isDigit = false) :
    digitsLoopCnt acc cnt rest = (acc, cnt, rest) := by
  cases rest with
  | nil => rfl
  | cons c t =>
    unfold digitsLoopCnt
    rw [if_neg (by rw [h c t rfl]; exact Bool.false_ne_true)]

/-- Helper: a numStop tail gives the digit-loop stop condition. -/
theorem numStop_isDigit (rest : List Char) (h : numStop rest) :
    ∀ c t, rest = c :: t → c.isDigit = false := by
  intro c t hct
  subst hct
  exact h.1

/-- Helper: every nonzero integer splits off its exact power-of-ten
factor. -/
theorem int_pow10_decomp (m : Int) (hm : m ≠ 0) :
    ∃ u z, m = u * 10 ^ z ∧ ¬((10 : Int) ∣ u) ∧ u ≠ 0 ∧ (0 < m ↔ 0 < u) := by
  have H : ∀ n : Nat, ∀ m : Int, m ≠ 0 → m.natAbs = n →
      ∃ u z, m = u * 10 ^ z ∧ ¬((10 : Int) ∣ u) ∧ u ≠ 0 ∧ (0 < m ↔ 0 < u) := by
    intro n
    induction n using Nat.strong_induction_on with
    | _ n ih =>
      intro m hm hn
      by_cases hdvd : (10 : Int) ∣ m
      · obtain ⟨m2, rfl⟩ := hdvd
        have hm2 : m2 ≠ 0 := by rintro rfl; simp at hm
        have hlt : m2.natAbs < n := by
          rw [← hn, Int.natAbs_mul]
          have h1 : 1 ≤ m2.natAbs := Int.natAbs_pos.mpr hm2
          have h2 : (10 : Int).natAbs = 10 := by decide
          rw [h2]
          omega
        obtain ⟨u, z, h1, h2, h3, h4⟩ := ih m2.natAbs hlt m2 hm2 rfl
        refine ⟨u, z + 1, ?_, h2, h3, ?_⟩
        · rw [h1]; ring
        · constructor
          · intro hp
            exact h4.mp (by omega)
          · intro hp
            have := h4.mpr hp
            omega
      · exact ⟨m, 0, by ring, hdvd, hm, Iff.rfl⟩
  exact H m.natAbs m hm rfl

/-- Helper: numDigitsF of zero is one for every fuel. -/
theorem numDigitsF_zero : ∀ g, numDigitsF g 0 = 1 := by
  intro g
  cases g with
  | zero => rfl
  | succ h => simp [numDigitsF]

/-- Helper: numDigitsF does not depend on the fuel once ten to the fuel
exceeds the number. -/
theorem numDigitsF_pow (f : Nat) :
    ∀ g n2, n2 < 10 ^ f → n2 < 10 ^ g → numDigitsF f n2 = numDigitsF g n2 := by
  induction f with
  | zero =>
    intro g n2 hf _
    have : n2 = 0 := by simpa using hf
    subst this
    rw [numDigitsF_zero, numDigitsF_zero]
  | succ f2 ih =>
    intro g n2 hf hg
    by_cases h10 : n2 < 10
    · cases g with
      | zero =>
        have : n2 = 0 := by simpa using hg
        subst this
        rw [numDigitsF_zero, numDigitsF_zero]
      | succ g2 => simp [numDigitsF, h10]
    · obtain ⟨g2, rfl⟩ : ∃ g2, g = g2 + 1 := by
        cases g with
        | zero => simp at hg; omega
        | succ g2 => exact ⟨g2, rfl⟩
      simp only [numDigitsF, h10, if_false]
      have hdf : n2 / 10 < 10 ^ f2 := by
        rw [Nat.div_lt_iff_lt_mul (by omega)]
        calc n2 < 10 ^ (f2 + 1) := hf
        _ = 10 ^ f2 * 10 := by ring
      have hdg : n2 / 10 < 10 ^ g2 := by
        rw [Nat.div_lt_iff_lt_mul (by omega)]
        calc n2 < 10 ^ (g2 + 1) := hg
        _ = 10 ^ g2 * 10 := by ring
      rw [ih g2 (n2 / 10) hdf hdg]

/-- Helper: the unfolding equation of numDigits. -/
theorem numDigits_eq (n : Nat) :
    numDigits n = if n < 10 then 1 else numDigits (n / 10) + 1 := by
  by_cases h10 : n < 10
  · rw [if_pos h10]
    cases n with
    | zero => rfl
    | succ k =>
      unfold numDigits
      simp [numDigitsF, h10]
  · rw [if_neg h10]
    unfold numDigits
    obtain ⟨k, rfl⟩ : ∃ k, n = k + 1 := ⟨n - 1, by omega⟩
    simp only [numDigitsF, h10, if_false]
    congr 1
    apply numDigitsF_pow k ((k + 1) / 10) ((k + 1) / 10)
    · have h1 : (k + 1) / 10 < 10 ^ ((k + 1) / 10) := Nat.lt_pow_self (by omega) _
      have h2 : (10 : Nat) ^ ((k + 1) / 10) ≤ 10 ^ k := by
        apply Nat.pow_le_pow_right (by omega)
        have := Nat.div_le_self (k + 1) 10
        have := Nat.div_lt_self (show 0 < k + 1 by omega) (show 1 < 10 by omega)
        omega
      omega
    · exact Nat.lt_pow_self (by omega) _

/-- Helper: a number with at least k + 1 digits of value, counted through
powers of ten. -/
theorem numDigits_gt (k : Nat) : ∀ n, 10 ^ k ≤ n → k < numDigits n := by
  induction k with
  | zero =>
    intro n _
    rw [numDigits_eq]
    by_cases h10 : n < 10
    · simp [h10]
    · simp [h10]
  | succ j ih =>
    intro n hn
    have h10 : ¬(n < 10) := by
      have : (10 : Nat) ^ (j + 1) ≥ 10 := by
        calc (10 : Nat) ^ (j + 1) = 10 ^ j * 10 := by ring
        _ ≥ 1 * 10 := by
          have : 1 ≤ (10 : Nat) ^ j := Nat.one_le_pow j 10 (by omega)
          omega
      omega
    rw [numDigits_eq, if_neg h10]
    have hdiv : 10 ^ j ≤ n / 10 := by
      rw [Nat.le_div_iff_mul_le (by omega)]
      calc 10 ^ j * 10 = 10 ^ (j + 1) := by ring
      _ ≤ n := hn
    have := ih (n / 10) hdiv
    omega

/-- Helper: the normalization loop strips exactly the trailing power of
ten when given enough fuel. -/
theorem normLoop_pow (k : Nat) :
    ∀ fuel (m t : Int), k ≤ fuel → ¬((10 : Int) ∣ m) → m ≠ 0 →
      normLoop fuel (m * 10 ^ k) t = (m, t + k) := by
  induction k with
  | zero =>
    intro fuel m t _ hdvd hm
    cases fuel with
    | zero => simp [normLoop]
    | succ f =>
      unfold normLoop
      rw [if_neg (by
        rw [show m * 10 ^ 0 = m by ring]
        intro hcon
        exact hdvd (Int.dvd_iff_tmod_eq_zero.mpr hcon))]
      simp
  | succ j ih =>
    intro fuel m t hfuel hdvd hm
    obtain ⟨f, rfl⟩ : ∃ f, fuel = f + 1 := ⟨fuel - 1, by omega⟩
    unfold normLoop
    have hmul : m * 10 ^ (j + 1) = m * 10 ^ j * 10 := by ring
    rw [if_pos (by rw [hmul]; exact Int.mul_tmod_left _ _)]
    rw [hmul, Int.mul_tdiv_cancel _ (by omega)]
    rw [ih f m (t + 1) (by omega) hdvd hm]
    rw [Prod.mk.injEq]
    refine ⟨rfl, ?_⟩
    push_cast
    ring

/-- Helper: normalization of an exact power-of-ten multiple. -/
theorem normNum_pow (m : Int) (k : Nat) (t : Int) (hdvd : ¬((10 : Int) ∣ m)) (hm : m ≠ 0) :
    normNum (m * 10 ^ k) t = (m, t + k) := by
  unfold normNum
  have hne : m * 10 ^ k ≠ 0 := by
    intro hcon
    rcases mul_eq_zero.mp hcon with h | h
    · exact hm h
    · have : (10 : Int) ^ k > 0 := by positivity
      omega
  rw [if_neg hne]
  apply normLoop_pow k _ m t _ hdvd hm
  have habs : (m * 10 ^ k).natAbs = m.natAbs * 10 ^ k := by
    rw [Int.natAbs_mul, Int.natAbs_pow]
    rfl
  have hge : 10 ^ k ≤ (m * 10 ^ k).natAbs := by
    rw [habs]
    have : 1 ≤ m.natAbs := Int.natAbs_pos.mpr hm
    calc 10 ^ k = 1 * 10 ^ k := by ring
    _ ≤ m.natAbs * 10 ^ k := Nat.mul_le_mul_right _ this
  have := numDigits_gt k (m * 10 ^ k).natAbs hge
  omega

/-- Helper: a digit character is none of the syntax characters the
parsers dispatch on, and is not JSON whitespace. -/
theorem isDigit_ne_special (c : Char) (h : c.isDigit = true) :
    c ≠ '-' ∧ c ≠ '+' ∧ c ≠ '.' ∧ c ≠ '"' ∧ c ≠ '\x7b' ∧ c ≠ '[' ∧ c ≠ 't' ∧ c ≠ 'f' ∧
    c ≠ 'n' ∧ jsonWS c = false := by
  refine ⟨?_, ?_, ?_, ?_, ?_, ?_, ?_, ?_, ?_, ?_⟩
  any_goals intro hc; subst hc; exact absurd h (by decide)
  simp only [jsonWS, Bool.or_eq_false_iff]
  refine ⟨⟨⟨?_, ?_⟩, ?_⟩, ?_⟩ <;>
    · simp only [decide_eq_false_iff_not]
      intro hc
      subst hc
      exact absurd h (by decide)

/-- Helper: folding the full digit list of a number after its leading
digit has been consumed. -/
theorem digitsLoop_full (n : Nat) (c : Char) (t X : List Char) (hct : natDigits n = c :: t) :
    digitsLoopCnt (c.toNat - 48) 1 (t ++ X) = digitsLoopCnt n (natDigits n).length X := by
  have hcd : c.isDigit = true := natDigits_all_digits n c (by rw [hct]; exact List.mem_cons_self _ _)
  have hmain := digitsLoopCnt_digits n 0 0 X
  rw [hct] at hmain
  rw [List.cons_append] at hmain
  have hstep : digitsLoopCnt 0 0 (c :: (t ++ X)) =
      digitsLoopCnt (10 * 0 + (c.toNat - 48)) (0 + 1) (t ++ X) := by
    simp only [digitsLoopCnt]
    rw [if_pos hcd]
  rw [hstep] at hmain
  simp only [Nat.mul_zero, Nat.zero_add, Nat.zero_mul] at hmain
  rw [hmain, hct]

/-- Helper: parsing the printed digits (with an optional trailing zero
run) reaches parseNumAfterInt with the full magnitude. -/
theorem parseNumberBody_digits (n k : Nat) (neg : Bool) (rest : List Char) (hn : 1 ≤ n)
    (hstop : ∀ c t, rest = c :: t → c.isDigit = false) :
    parseNumberBody neg (natDigits n ++ List.replicate k '0' ++ rest) =
      parseNumAfterInt neg (n * 10 ^ k) rest := by
  cases hct : natDigits n with
  | nil => exact absurd hct (natDigits_ne_nil n)
  | cons c t =>
    have hcd : c.isDigit = true :=
      natDigits_all_digits n c (by rw [hct]; exact List.mem_cons_self _ _)
    have hc0 : c ≠ '0' := natDigits_head_ne_zero n hn c t hct
    rw [List.append_assoc, List.cons_append]
    simp only [parseNumberBody]
    rw [if_neg hc0, if_pos hcd]
    have h1 := digitsLoop_full n c t (List.replicate k '0' ++ rest) hct
    rw [digitsLoopCnt_zeros k n (natDigits n).length rest, digitsLoopCnt_stop _ _ rest hstop] at h1
    rw [h1]

/-- Helper: parsing the printed exponent digits. -/
theorem parseExpDigits_digits (n : Nat) (neg : Bool) (rest : List Char)
    (hstop : ∀ c t, rest = c :: t → c.isDigit = false) :
    parseExpDigits neg (natDigits n ++ rest) =
      some ((if neg then -(n : Int) else (n : Int)), rest) := by
  cases hct : natDigits n with
  | nil => exact absurd hct (natDigits_ne_nil n)
  | cons c t =>
    have hcd : c.isDigit = true :=
      natDigits_all_digits n c (by rw [hct]; exact List.mem_cons_self _ _)
    rw [List.cons_append]
    simp only [parseExpDigits]
    rw [if_pos hcd]
    have h1 := digitsLoop_full n c t rest hct
    rw [digitsLoopCnt_stop _ _ rest hstop] at h1
    rw [h1]

/-- Helper: without a decimal point the fraction part is empty. -/
theorem parseNumAfterInt_nofrac (neg : Bool) (ip : Nat) (rest : List Char)
    (hstop : ∀ c t, rest = c :: t → c ≠ '.') :
    parseNumAfterInt neg ip rest = parseNumAfterFrac neg ip 0 0 rest := by
  cases rest with
  | nil => rfl
  | cons c t =>
    simp only [parseNumAfterInt]
    rw [if_neg (hstop c t rfl)]

/-- Helper: without an exponent marker the number literal ends. -/
theorem parseNumAfterFrac_noexp (neg : Bool) (ip fv fc : Nat) (rest : List Char)
    (hstop : ∀ c t, rest = c :: t → c ≠ 'e' ∧ c ≠ 'E') :
    parseNumAfterFrac neg ip fv fc rest = .ok (mkJNum neg ip fv fc false 0, rest) := by
  cases rest with
  | nil => rfl
  | cons c t =>
    simp only [parseNumAfterFrac]
    rw [if_neg (by
      intro hor
      rcases hor with h | h
      · exact (hstop c t rfl).1 h
      · exact (hstop c t rfl).2 h)]

/-- Helper: the casts between an integer and its printed absolute value. -/
theorem natAbs_cast_sign (m : Int) :
    (m < 0 → (m.natAbs : Int) = -m) ∧ (¬(m < 0) → (m.natAbs : Int) = m) := by
  constructor
  · intro h
    rw [Int.ofNat_natAbs_of_nonpos (by omega)]
  · intro h
    rw [Int.natAbs_of_nonneg (by omega)]

/-- Helper: parsing a printed sign prefix dispatches on the sign of the
number. -/
theorem parseNumber_signed (m : Int) (Y : List Char) :
    parseNumber (((if m < 0 then ['-'] else []) ++ natDigits m.natAbs) ++ Y) =
      parseNumberBody (decide (m < 0)) (natDigits m.natAbs ++ Y) := by
  by_cases hneg : m < 0
  · rw [if_pos hneg]
    rw [show ((['-'] ++ natDigits m.natAbs) ++ Y : List Char) =
      '-' :: (natDigits m.natAbs ++ Y) by simp]
    simp only [parseNumber]
    rw [if_pos trivial]
    rw [decide_eq_true hneg]
  · rw [if_neg hneg, List.nil_append]
    cases hct : natDigits m.natAbs with
    | nil => exact absurd hct (natDigits_ne_nil _)
    | cons c t =>
      have hcd : c.isDigit = true :=
        natDigits_all_digits _ c (by rw [hct]; exact List.mem_cons_self _ _)
      have hcm : c ≠ '-' := (isDigit_ne_special c hcd).1
      rw [List.cons_append]
      simp only [parseNumber]
      rw [if_neg hcm, decide_eq_false hneg, ← List.cons_append]

/-- Helper: the number constructor applied to a printed magnitude with its
zero run recovers the canonical number. -/
theorem mkJNum_norm (m : Int) (hm : m ≠ 0) (hdvd : ¬((10 : Int) ∣ m)) (k : Nat)
    (hasExp : Bool) (ev : Int) :
    mkJNum (decide (m < 0)) (m.natAbs * 10 ^ k) 0 0 hasExp ev =
      Json.num m (ev + k) (!hasExp) := by
  have hmag : ((m.natAbs * 10 ^ k) * 10 ^ 0 + 0 : Nat) = m.natAbs * 10 ^ k := by ring
  have hcast : ((m.natAbs * 10 ^ k : Nat) : Int) = (m.natAbs : Int) * 10 ^ k := by push_cast; ring
  by_cases hneg : m < 0
  · have habs : (m.natAbs : Int) = -m := (natAbs_cast_sign m).1 hneg
    simp only [mkJNum, hmag, decide_eq_true hneg, if_pos, hcast, habs]
    rw [show (-(-m * 10 ^ k) : Int) = m * 10 ^ k by ring]
    rw [show (ev - ((0 : Nat) : Int)) = ev by simp]
    rw [normNum_pow m k ev hdvd hm]
    simp
  · have habs : (m.natAbs : Int) = m := (natAbs_cast_sign m).2 hneg
    simp only [mkJNum, hmag, decide_eq_false hneg, hcast, habs]
    rw [show (ev - ((0 : Nat) : Int)) = ev by simp]
    rw [if_neg (by simp)]
    rw [normNum_pow m k ev hdvd hm]
    simp

/-- Helper: round trip of the number printer and the number parser on
canonical well-formed numbers. -/
theorem parse_printJNum (m e : Int) (i : Bool) (hwf : jnumWF m e i) (rest : List Char)
    (hstop : numStop rest) :
    parseNumber (printJNum m e i ++ rest) = .ok (Json.num m e i, rest) := by
  obtain ⟨hwf1, hwf2, hwf3⟩ := hwf
  have hstopD : ∀ c t, rest = c :: t → c.isDigit = false := numStop_isDigit rest hstop
  have hstopDot : ∀ c t, rest = c :: t → c ≠ '.' := by
    intro c t h; subst h; exact hstop.2.1
  have hstopE : ∀ c t, rest = c :: t → c ≠ 'e' ∧ c ≠ 'E' := by
    intro c t h; subst h; exact ⟨hstop.2.2.1, hstop.2.2.2⟩
  by_cases hm0 : m = 0
  · subst hm0
    obtain ⟨he0, hi⟩ := hwf1 rfl
    subst he0
    subst hi
    rw [show printJNum 0 0 true = ['0'] from rfl, List.cons_append, List.nil_append]
    simp only [parseNumber]
    rw [if_neg (show ¬(('0' : Char) = '-') by decide)]
    simp only [parseNumberBody]
    rw [if_pos trivial]
    rw [parseNumAfterInt_nofrac _ _ _ hstopDot, parseNumAfterFrac_noexp _ _ _ _ _ hstopE]
    rfl
  · have hdvd : ¬((10 : Int) ∣ m) := hwf2 hm0
    have hn1 : 1 ≤ m.natAbs := Int.natAbs_pos.mpr hm0
    cases i with
    | true =>
      have he : 0 ≤ e := hwf3 rfl
      rw [show printJNum m e true =
        ((if m < 0 then ['-'] else []) ++ natDigits m.natAbs) ++ List.replicate e.toNat '0'
        from rfl]
      rw [List.append_assoc _ _ rest]
      rw [parseNumber_signed m (List.replicate e.toNat '0' ++ rest)]
      rw [← List.append_assoc]
      rw [parseNumberBody_digits m.natAbs e.toNat (decide (m < 0)) rest hn1 hstopD]
      rw [parseNumAfterInt_nofrac _ _ _ hstopDot, parseNumAfterFrac_noexp _ _ _ _ _ hstopE]
      rw [mkJNum_norm m hm0 hdvd e.toNat false 0]
      rw [show ((0 : Int) + (e.toNat : Int)) = e by
        rw [Int.toNat_of_nonneg he]; ring]
      rfl
    | false =>
      rw [show printJNum m e false =
        ((if m < 0 then ['-'] else []) ++ natDigits m.natAbs) ++
          ('e' :: ((if e < 0 then ['-'] else []) ++ natDigits e.natAbs)) from rfl]
      rw [List.append_assoc _ _ rest]
      rw [parseNumber_signed m _]
      rw [show ('e' :: ((if e < 0 then ['-'] else []) ++ natDigits e.natAbs)) ++ rest =
        List.replicate 0 '0' ++ ('e' :: (((if e < 0 then ['-'] else []) ++ natDigits e.natAbs) ++ rest))
        by simp]
      rw [← List.append_assoc]
      rw [parseNumberBody_digits m.natAbs 0 (decide (m < 0))
        ('e' :: (((if e < 0 then ['-'] else []) ++ natDigits e.natAbs) ++ rest)) hn1
        (by intro c t h; cases h; decide)]
      rw [parseNumAfterInt_nofrac _ _ _ (by intro c t h; cases h; decide)]
      simp only [parseNumAfterFrac]
      rw [if_pos (Or.inl trivial)]
      have hexp : parseExp (((if e < 0 then ['-'] else []) ++ natDigits e.natAbs) ++ rest) =
          some (e, rest) := by
        by_cases hneg : e < 0
        · rw [if_pos hneg]
          rw [show ((['-'] ++ natDigits e.natAbs) ++ rest : List Char) =
            '-' :: (natDigits e.natAbs ++ rest) by simp]
          simp only [parseExp]
          rw [if_neg (by decide), if_pos trivial]
          rw [parseExpDigits_digits e.natAbs true rest hstopD]
          rw [if_pos rfl]
          rw [show (-(e.natAbs : Int)) = e by
            rw [(natAbs_cast_sign e).1 hneg]; ring]
        · rw [if_neg hneg, List.nil_append]
          cases hct : natDigits e.natAbs with
          | nil => exact absurd hct (natDigits_ne_nil _)
          | cons c t =>
            have hcd : c.isDigit = true :=
              natDigits_all_digits _ c (by rw [hct]; exact List.mem_cons_self _ _)
            rw [List.cons_append]
            simp only [parseExp]
            rw [if_neg (isDigit_ne_special c hcd).2.1, if_neg (isDigit_ne_special c hcd).1]
            rw [← List.cons_append, ← hct]
            rw [parseExpDigits_digits e.natAbs false rest hstopD]
            rw [if_neg (by simp)]
            rw [(natAbs_cast_sign e).2 hneg]
      rw [hexp]
      show Except.ok (mkJNum (decide (m < 0)) (m.natAbs * 10 ^ 0) 0 0 true e, rest) =
        Except.ok (Json.num m e false, rest)
      rw [mkJNum_norm m hm0 hdvd 0 true e]
      rw [show (e + ((0 : Nat) : Int)) = e by simp]
      rfl

/-- Helper: hex digit characters evaluate back to their value. -/
theorem hexVal_hexDigitChar (d : Nat) (h : d < 16) : hexVal (hexDigitChar d) = some d := by
  interval_cases d <;> decide

/-- Helper: characters with equal code points are equal. -/
theorem char_eq_of_toNat (c d : Char) (h : c.toNat = d.toNat) : c = d := by
  rw [← Char.ofNat_toNat c, h, Char.ofNat_toNat]


/-- Helper: unescaping inverts the escaping of Marshal, character by
character. -/
theorem parseStringF_escape (s : List Char) :
    ∀ (f : Nat) (rest : List Char), (escapeList s).length < f →
      parseStringF f (escapeList s ++ '"' :: rest) = .ok (s, rest) := by
  induction s with
  | nil =>
    intro f rest hf
    obtain ⟨f2, rfl⟩ : ∃ f2, f = f2 + 1 := ⟨f - 1, by omega⟩
    rw [show escapeList ([] : List Char) ++ '"' :: rest = '"' :: rest from rfl]
    rfl
  | cons c s ih =>
    intro f rest hf
    rw [show escapeList (c :: s) = escapeChar c ++ escapeList s from rfl] at hf ⊢
    rw [List.length_append] at hf
    obtain ⟨f2, rfl⟩ : ∃ f2, f = f2 + 1 := ⟨f - 1, by omega⟩
    by_cases h1 : c = '"'
    · subst h1
      rw [show escapeChar '"' = ['\\', '"'] from rfl] at hf ⊢
      simp only [List.length_cons, List.length_nil] at hf
      rw [show parseStringF (f2 + 1) (['\\', '"'] ++ escapeList s ++ '"' :: rest) =
          Except.map (fun p => ('"' :: p.1, p.2)) (parseStringF f2 (escapeList s ++ '"' :: rest))
        from rfl]
      rw [ih f2 rest (by omega)]
      rfl
    by_cases h2 : c = '\\'
    · subst h2
      rw [show escapeChar '\\' = ['\\', '\\'] from rfl] at hf ⊢
      simp only [List.length_cons, List.length_nil] at hf
      rw [show parseStringF (f2 + 1) (['\\', '\\'] ++ escapeList s ++ '"' :: rest) =
          Except.map (fun p => ('\\' :: p.1, p.2)) (parseStringF f2 (escapeList s ++ '"' :: rest))
        from rfl]
      rw [ih f2 rest (by omega)]
      rfl
    by_cases h3 : c = '\n'
    · subst h3
      rw [show escapeChar '\n' = ['\\', 'n'] from rfl] at hf ⊢
      simp only [List.length_cons, List.length_nil] at hf
      rw [show parseStringF (f2 + 1) (['\\', 'n'] ++ escapeList s ++ '"' :: rest) =
          Except.map (fun p => ('\n' :: p.1, p.2)) (parseStringF f2 (escapeList s ++ '"' :: rest))
        from rfl]
      rw [ih f2 rest (by omega)]
      rfl
    by_cases h4 : c = '\r'
    · subst h4
      rw [show escapeChar '\r' = ['\\', 'r'] from rfl] at hf ⊢
      simp only [List.length_cons, List.length_nil] at hf
      rw [show parseStringF (f2 + 1) (['\\', 'r'] ++ escapeList s ++ '"' :: rest) =
          Except.map (fun p => ('\r' :: p.1, p.2)) (parseStringF f2 (escapeList s ++ '"' :: rest))
        from rfl]
      rw [ih f2 rest (by omega)]
      rfl
    by_cases h5 : c = '\t'
    · subst h5
      rw [show escapeChar '\t' = ['\\', 't'] from rfl] at hf ⊢
      simp only [List.length_cons, List.length_nil] at hf
      rw [show parseStringF (f2 + 1) (['\\', 't'] ++ escapeList s ++ '"' :: rest) =
          Except.map (fun p => ('\t' :: p.1, p.2)) (parseStringF f2 (escapeList s ++ '"' :: rest))
        from rfl]
      rw [ih f2 rest (by omega)]
      rfl
    by_cases h6 : c.toNat < 32
    · have hesc : escapeChar c =
          ['\\', 'u', '0', '0', hexDigitChar (c.toNat / 16), hexDigitChar (c.toNat % 16)] := by
        unfold escapeChar
        rw [if_neg h1, if_neg h2, if_neg h3, if_neg h4, if_neg h5, if_pos h6]
      rw [hesc] at hf ⊢
      simp only [List.length_cons, List.length_nil] at hf
      simp only [List.append_assoc, List.cons_append, List.nil_append]
      simp only [parseStringF]
      rw [if_neg (by decide), if_pos trivial, if_pos trivial]
      rw [show hexVal '0' = some 0 from rfl,
        hexVal_hexDigitChar (c.toNat / 16) (by omega),
        hexVal_hexDigitChar (c.toNat % 16) (by omega)]
      simp only []
      rw [if_neg (by omega), if_neg (by omega)]
      rw [ih f2 rest (by omega)]
      rw [show 4096 * 0 + 256 * 0 + 16 * (c.toNat / 16) + c.toNat % 16 = c.toNat from by omega,
        Char.ofNat_toNat]
      rfl
    by_cases h7 : c = '<'
    · subst h7
      rw [show escapeChar '<' = ['\\', 'u', '0', '0', '3', 'c'] from rfl] at hf ⊢
      simp only [List.length_cons, List.length_nil] at hf
      rw [show parseStringF (f2 + 1) (['\\', 'u', '0', '0', '3', 'c'] ++ escapeList s ++ '"' :: rest) =
          Except.map (fun p => ('<' :: p.1, p.2)) (parseStringF f2 (escapeList s ++ '"' :: rest))
        from rfl]
      rw [ih f2 rest (by omega)]
      rfl
    by_cases h8 : c = '>'
    · subst h8
      rw [show escapeChar '>' = ['\\', 'u', '0', '0', '3', 'e'] from rfl] at hf ⊢
      simp only [List.length_cons, List.length_nil] at hf
      rw [show parseStringF (f2 + 1) (['\\', 'u', '0', '0', '3', 'e'] ++ escapeList s ++ '"' :: rest) =
          Except.map (fun p => ('>' :: p.1, p.2)) (parseStringF f2 (escapeList s ++ '"' :: rest))
        from rfl]
      rw [ih f2 rest (by omega)]
      rfl
    by_cases h9 : c = '&'
    · subst h9
      rw [show escapeChar '&' = ['\\', 'u', '0', '0', '2', '6'] from rfl] at hf ⊢
      simp only [List.length_cons, List.length_nil] at hf
      rw [show parseStringF (f2 + 1) (['\\', 'u', '0', '0', '2', '6'] ++ escapeList s ++ '"' :: rest) =
          Except.map (fun p => ('&' :: p.1, p.2)) (parseStringF f2 (escapeList s ++ '"' :: rest))
        from rfl]
      rw [ih f2 rest (by omega)]
      rfl
    by_cases h10 : c.toNat = 8232
    · have hc : c = '\u2028' := char_eq_of_toNat c _ (by rw [h10]; rfl)
      subst hc
      rw [show escapeChar '\u2028' = ['\\', 'u', '2', '0', '2', '8'] from rfl] at hf ⊢
      simp only [List.length_cons, List.length_nil] at hf
      rw [show parseStringF (f2 + 1) (['\\', 'u', '2', '0', '2', '8'] ++ escapeList s ++ '"' :: rest) =
          Except.map (fun p => ('\u2028' :: p.1, p.2)) (parseStringF f2 (escapeList s ++ '"' :: rest))
        from rfl]
      rw [ih f2 rest (by omega)]
      rfl
    by_cases h11 : c.toNat = 8233
    · have hc : c = '\u2029' := char_eq_of_toNat c _ (by rw [h11]; rfl)
      subst hc
      rw [show escapeChar '\u2029' = ['\\', 'u', '2', '0', '2', '9'] from rfl] at hf ⊢
      simp only [List.length_cons, List.length_nil] at hf
      rw [show parseStringF (f2 + 1) (['\\', 'u', '2', '0', '2', '9'] ++ escapeList s ++ '"' :: rest) =
          Except.map (fun p => ('\u2029' :: p.1, p.2)) (parseStringF f2 (escapeList s ++ '"' :: rest))
        from rfl]
      rw [ih f2 rest (by omega)]
      rfl
    · have hesc : escapeChar c = [c] := by
        unfold escapeChar
        rw [if_neg h1, if_neg h2, if_neg h3, if_neg h4, if_neg h5, if_neg h6,
          if_neg h7, if_neg h8, if_neg h9, if_neg h10, if_neg h11]
      rw [hesc] at hf ⊢
      simp only [List.length_cons, List.length_nil] at hf
      simp only [List.cons_append, List.nil_append]
      simp only [parseStringF]
      rw [if_neg h1, if_neg h2, if_neg (by omega)]
      rw [ih f2 rest (by omega)]
      rfl

/-- Helper: the value parser inverts Marshal on scalar values, at any
nesting fuel, when the remainder cannot extend a number literal. -/
theorem parseValueF_scalar (v : Json) (hwf : scalarWF v) (f : Nat) (rest : List Char)
    (hstop : numStop rest) :
    parseValueF (f + 1) (printJson v ++ rest) = .ok (v, rest) := by
  cases v with
  | null => rfl
  | bool b => cases b <;> rfl
  | str s =>
    rw [show printJson (Json.str s) ++ rest = '"' :: (escapeList s ++ '"' :: rest) from by
      simp [printJson, printString]]
    rw [show parseValueF (f + 1) ('"' :: (escapeList s ++ '"' :: rest)) =
        (parseStringF ((escapeList s ++ '"' :: rest).length + 1)
          (escapeList s ++ '"' :: rest)).map (fun p => (Json.str p.1, p.2)) from rfl]
    rw [parseStringF_escape s ((escapeList s ++ '"' :: rest).length + 1) rest
      (by simp; omega)]
    rfl
  | arr l => cases hwf
  | obj l => cases hwf
  | num m e i =>
    rw [show printJson (Json.num m e i) = printJNum m e i from rfl]
    have hnum := parse_printJNum m e i hwf rest hstop
    have hsplit : ∃ tl, printJNum m e i =
        ((if m < 0 then ['-'] else []) ++ natDigits m.natAbs) ++ tl := by
      cases i
      · exact ⟨'e' :: ((if e < 0 then ['-'] else []) ++ natDigits e.natAbs), rfl⟩
      · exact ⟨List.replicate e.toNat '0', rfl⟩
    obtain ⟨tl, htl⟩ := hsplit
    by_cases hm : m < 0
    · have hl : printJNum m e i = '-' :: (natDigits m.natAbs ++ tl) := by
        rw [htl, if_pos hm]; rfl
      rw [hl, List.cons_append] at hnum ⊢
      rw [show parseValueF (f + 1) ('-' :: (natDigits m.natAbs ++ tl ++ rest)) =
          parseNumber ('-' :: (natDigits m.natAbs ++ tl ++ rest)) from rfl]
      exact hnum
    · obtain ⟨c, t, hct⟩ : ∃ c t, natDigits m.natAbs = c :: t := by
        cases hcd : natDigits m.natAbs with
        | nil => exact absurd hcd (natDigits_ne_nil m.natAbs)
        | cons c t => exact ⟨c, t, rfl⟩
      have hdig : c.isDigit = true :=
        natDigits_all_digits m.natAbs c (by rw [hct]; exact List.mem_cons_self c t)
      have hl : printJNum m e i = c :: (t ++ tl) := by
        rw [htl, if_neg hm, hct]; rfl
      rw [hl, List.cons_append] at hnum ⊢
      obtain ⟨hc1, hc2, hc3, hc4, hc5, hc6, hc7, hc8, hc9, hc10⟩ := isDigit_ne_special c hdig
      have hskip : skipWS (c :: (t ++ tl ++ rest)) = c :: (t ++ tl ++ rest) := by
        unfold skipWS
        rw [if_neg (by simp [hc10])]
      rw [show parseValueF (f + 1) (c :: (t ++ tl ++ rest)) =
          parseLayer (parseValueF f) (c :: (t ++ tl ++ rest)) from rfl]
      unfold parseLayer
      simp only [hskip]
      rw [if_neg hc4, if_neg hc5, if_neg hc6, if_neg hc7, if_neg hc8, if_neg hc9,
        if_pos (by simp [hdig])]
      exact hnum

/-- Helper: the number parser inverts the integer formatting of an int64
field, and the resulting number decodes back to the same integer. -/
theorem parse_printInt (T : Int) (h1 : int64Min ≤ T) (h2 : T ≤ int64Max)
    (rest : List Char) (hstop : numStop rest) :
    ∃ u z, parseNumber (printInt T ++ rest) = .ok (Json.num u z true, rest) ∧
      jnumInt u z true = some T := by
  by_cases hT : T = 0
  · subst hT
    refine ⟨0, 0, ?_, ?_⟩
    · rw [show printInt 0 = printJNum 0 0 true from rfl]
      exact parse_printJNum 0 0 true (by unfold jnumWF; simp) rest hstop
    · rfl
  · obtain ⟨u, z, hdecomp, hndvd, hu0, hsign⟩ := int_pow10_decomp T hT
    have hu1 : 1 ≤ u.natAbs := by omega
    have hwf : jnumWF u (z : Int) true :=
      ⟨fun h => absurd h hu0, fun _ => hndvd, fun _ => Int.natCast_nonneg z⟩
    have habs : T.natAbs = u.natAbs * 10 ^ z := by
      rw [hdecomp, Int.natAbs_mul]
      congr 1
      rw [Int.natAbs_pow]
      rfl
    have hprint : printInt T = printJNum u (z : Int) true := by
      rw [show printJNum u (z : Int) true =
        ((if u < 0 then ['-'] else []) ++ natDigits u.natAbs) ++
          List.replicate ((z : Int)).toNat '0' from rfl]
      unfold printInt
      rw [Int.toNat_natCast, habs, natDigits_mul_pow10 u.natAbs hu1 z]
      rw [show (if T < 0 then ['-'] else ([] : List Char)) =
          (if u < 0 then ['-'] else []) from by
        by_cases hu : u < 0
        · rw [if_pos hu, if_pos (by omega)]
        · rw [if_neg hu, if_neg (by omega)]]
      rw [List.append_assoc]
    refine ⟨u, (z : Int), ?_, ?_⟩
    · rw [hprint]
      exact parse_printJNum u (z : Int) true hwf rest hstop
    · show (if int64Min ≤ u * 10 ^ ((z : Int)).toNat ∧ u * 10 ^ ((z : Int)).toNat ≤ int64Max
          then some (u * 10 ^ ((z : Int)).toNat) else none) = some T
      rw [Int.toNat_natCast, ← hdecomp, if_pos ⟨h1, h2⟩]

/-- Helper: a comma cannot extend a number literal. -/
theorem numStop_comma (t : List Char) : numStop (',' :: t) :=
  ⟨by decide, by decide, by decide, by decide⟩

/-- Helper: a closing brace cannot extend a number literal. -/
theorem numStop_rbrace (t : List Char) : numStop ('\x7d' :: t) :=
  ⟨by decide, by decide, by decide, by decide⟩

/-- Helper: one object member followed by a comma, consumed by the member
loop. -/
theorem membersLoop_step (rec : List Char → Except (List Char) (Json × List Char))
    (f : Nat) (hf : 1 ≤ f) (first : Bool) (name : List Char) (hname : escapeList name = name)
    (v : Json) (VAL t2 : List Char)
    (hrec : rec (VAL ++ ',' :: t2) = .ok (v, ',' :: t2)) :
    membersLoop rec f first ('"' :: (name ++ '"' :: ':' :: (VAL ++ ',' :: t2))) =
      (membersLoop rec (f - 1) false t2).map (fun p => ((name, v) :: p.1, p.2)) := by
  obtain ⟨f2, rfl⟩ : ∃ f2, f = f2 + 1 := ⟨f - 1, by omega⟩
  rw [Nat.add_sub_cancel]
  have hstr := parseStringF_escape name
    ((name ++ '"' :: ':' :: (VAL ++ ',' :: t2)).length + 1) (':' :: (VAL ++ ',' :: t2))
    (by rw [hname]; simp; omega)
  rw [hname] at hstr
  have hskip1 : skipWS ('"' :: (name ++ '"' :: ':' :: (VAL ++ ',' :: t2))) =
      '"' :: (name ++ '"' :: ':' :: (VAL ++ ',' :: t2)) := by
    unfold skipWS; rw [if_neg (by decide)]
  have hskip2 : skipWS (':' :: (VAL ++ ',' :: t2)) = ':' :: (VAL ++ ',' :: t2) := by
    unfold skipWS; rw [if_neg (by decide)]
  have hskip3 : skipWS (',' :: t2) = ',' :: t2 := by
    unfold skipWS; rw [if_neg (by decide)]
  conv_lhs => unfold membersLoop
  simp only [hskip1]
  simp only [hstr]
  simp only [hskip2]
  simp only [hrec]
  simp only [hskip3]

/-- Helper: the final object member followed by the closing brace, consumed
by the member loop. -/
theorem membersLoop_last (rec : List Char → Except (List Char) (Json × List Char))
    (f : Nat) (hf : 1 ≤ f) (first : Bool) (name : List Char) (hname : escapeList name = name)
    (v : Json) (VAL t2 : List Char)
    (hrec : rec (VAL ++ '\x7d' :: t2) = .ok (v, '\x7d' :: t2)) :
    membersLoop rec f first ('"' :: (name ++ '"' :: ':' :: (VAL ++ '\x7d' :: t2))) =
      .ok ([(name, v)], t2) := by
  obtain ⟨f2, rfl⟩ : ∃ f2, f = f2 + 1 := ⟨f - 1, by omega⟩
  have hstr := parseStringF_escape name
    ((name ++ '"' :: ':' :: (VAL ++ '\x7d' :: t2)).length + 1) (':' :: (VAL ++ '\x7d' :: t2))
    (by rw [hname]; simp; omega)
  rw [hname] at hstr
  have hskip1 : skipWS ('"' :: (name ++ '"' :: ':' :: (VAL ++ '\x7d' :: t2))) =
      '"' :: (name ++ '"' :: ':' :: (VAL ++ '\x7d' :: t2)) := by
    unfold skipWS; rw [if_neg (by decide)]
  have hskip2 : skipWS (':' :: (VAL ++ '\x7d' :: t2)) = ':' :: (VAL ++ '\x7d' :: t2) := by
    unfold skipWS; rw [if_neg (by decide)]
  have hskip3 : skipWS ('\x7d' :: t2) = '\x7d' :: t2 := by
    unfold skipWS; rw [if_neg (by decide)]
  conv_lhs => unfold membersLoop
  simp only [hskip1]
  simp only [hstr]
  simp only [hskip2]
  simp only [hrec]
  simp only [hskip3]

/-- Helper: the value parser inverts the integer formatting of an int64
field for every fuel and remainder, and the resulting number decodes back
to the same integer. -/
theorem parseValueF_printInt (T : Int) (h1 : int64Min ≤ T) (h2 : T ≤ int64Max) :
    ∃ u z, jnumInt u z true = some T ∧
      ∀ (f : Nat) (rest : List Char), numStop rest →
        parseValueF (f + 1) (printInt T ++ rest) = .ok (Json.num u z true, rest) := by
  by_cases hT : T = 0
  · subst hT
    refine ⟨0, 0, rfl, ?_⟩
    intro f rest hstop
    rw [show printInt 0 = printJson (Json.num 0 0 true) from rfl]
    exact parseValueF_scalar (Json.num 0 0 true) (by unfold scalarWF jnumWF; simp) f rest hstop
  · obtain ⟨u, z, hdecomp, hndvd, hu0, hsign⟩ := int_pow10_decomp T hT
    have hu1 : 1 ≤ u.natAbs := by omega
    have hwf : jnumWF u (z : Int) true :=
      ⟨fun h => absurd h hu0, fun _ => hndvd, fun _ => Int.natCast_nonneg z⟩
    have habs : T.natAbs = u.natAbs * 10 ^ z := by
      rw [hdecomp, Int.natAbs_mul]
      congr 1
      rw [Int.natAbs_pow]
      rfl
    have hprint : printInt T = printJNum u (z : Int) true := by
      rw [show printJNum u (z : Int) true =
        ((if u < 0 then ['-'] else []) ++ natDigits u.natAbs) ++
          List.replicate ((z : Int)).toNat '0' from rfl]
      unfold printInt
      rw [Int.toNat_natCast, habs, natDigits_mul_pow10 u.natAbs hu1 z]
      rw [show (if T < 0 then ['-'] else ([] : List Char)) =
          (if u < 0 then ['-'] else []) from by
        by_cases hu : u < 0
        · rw [if_pos hu, if_pos (by omega)]
        · rw [if_neg hu, if_neg (by omega)]]
      rw [List.append_assoc]
    refine ⟨u, (z : Int), ?_, ?_⟩
    · show (if int64Min ≤ u * 10 ^ ((z : Int)).toNat ∧ u * 10 ^ ((z : Int)).toNat ≤ int64Max
          then some (u * 10 ^ ((z : Int)).toNat) else none) = some T
      rw [Int.toNat_natCast, ← hdecomp, if_pos ⟨h1, h2⟩]
    · intro f rest hstop
      rw [show printInt T = printJson (Json.num u (z : Int) true) from hprint]
      exact parseValueF_scalar (Json.num u (z : Int) true) hwf f rest hstop

/-- Helper: the member loop consumes the three members ts, v, s of a
marshalled wirePV object. -/
theorem membersLoop_wire (n : Nat) (T S : Int) (v : Json) (u1 z1 u2 z2 : Int)
    (hA : ∀ f rest, numStop rest →
      parseValueF (f + 1) (printInt T ++ rest) = .ok (Json.num u1 z1 true, rest))
    (hS : ∀ f rest, numStop rest →
      parseValueF (f + 1) (printInt S ++ rest) = .ok (Json.num u2 z2 true, rest))
    (hv : scalarWF v) (F : Nat) (hF : 2 ≤ F) :
    membersLoop (parseValueF (n + 1)) (F + 1) true
      ('"' :: (['t', 's'] ++ '"' :: ':' :: (printInt T ++ ',' ::
        ('"' :: (['v'] ++ '"' :: ':' :: (printJson v ++ ',' ::
          ('"' :: (['s'] ++ '"' :: ':' :: (printInt S ++ '\x7d' :: []))))))))) =
      .ok ([(['t', 's'], Json.num u1 z1 true), (['v'], v), (['s'], Json.num u2 z2 true)],
        []) := by
  rw [membersLoop_step (parseValueF (n + 1)) (F + 1) (by omega) true ['t', 's'] rfl
    (Json.num u1 z1 true) (printInt T) _ (hA n _ (numStop_comma _))]
  rw [Nat.add_sub_cancel]
  rw [membersLoop_step (parseValueF (n + 1)) F (by omega) false ['v'] rfl
    v (printJson v) _ (parseValueF_scalar v hv n _ (numStop_comma _))]
  rw [membersLoop_last (parseValueF (n + 1)) (F - 1) (by omega) false ['s'] rfl
    (Json.num u2 z2 true) (printInt S) [] (hS n _ (numStop_rbrace _))]
  rfl

/-- Helper: the value parser recovers the three-member object of a
marshalled wirePV. -/
theorem parseValueF_wire (T S : Int) (v : Json) (u1 z1 u2 z2 : Int)
    (hA : ∀ f rest, numStop rest →
      parseValueF (f + 1) (printInt T ++ rest) = .ok (Json.num u1 z1 true, rest))
    (hS : ∀ f rest, numStop rest →
      parseValueF (f + 1) (printInt S ++ rest) = .ok (Json.num u2 z2 true, rest))
    (hv : scalarWF v) :
    parseValueF (('\x7b' :: '"' :: (['t', 's'] ++ '"' :: ':' :: (printInt T ++ ',' ::
        ('"' :: (['v'] ++ '"' :: ':' :: (printJson v ++ ',' ::
          ('"' :: (['s'] ++ '"' :: ':' :: (printInt S ++ '\x7d' :: []))))))))).length + 2)
      ('\x7b' :: '"' :: (['t', 's'] ++ '"' :: ':' :: (printInt T ++ ',' ::
        ('"' :: (['v'] ++ '"' :: ':' :: (printJson v ++ ',' ::
          ('"' :: (['s'] ++ '"' :: ':' :: (printInt S ++ '\x7d' :: []))))))))) =
      .ok (Json.obj [(['t', 's'], Json.num u1 z1 true), (['v'], v),
        (['s'], Json.num u2 z2 true)], []) := by
  have step1 : parseValueF (('\x7b' :: '"' :: (['t', 's'] ++ '"' :: ':' :: (printInt T ++ ',' ::
        ('"' :: (['v'] ++ '"' :: ':' :: (printJson v ++ ',' ::
          ('"' :: (['s'] ++ '"' :: ':' :: (printInt S ++ '\x7d' :: []))))))))).length + 2)
      ('\x7b' :: '"' :: (['t', 's'] ++ '"' :: ':' :: (printInt T ++ ',' ::
        ('"' :: (['v'] ++ '"' :: ':' :: (printJson v ++ ',' ::
          ('"' :: (['s'] ++ '"' :: ':' :: (printInt S ++ '\x7d' :: []))))))))) =
      (membersLoop
        (parseValueF (('\x7b' :: '"' :: (['t', 's'] ++ '"' :: ':' :: (printInt T ++ ',' ::
        ('"' :: (['v'] ++ '"' :: ':' :: (printJson v ++ ',' ::
          ('"' :: (['s'] ++ '"' :: ':' :: (printInt S ++ '\x7d' :: []))))))))).length + 1))
        (('"' :: (['t', 's'] ++ '"' :: ':' :: (printInt T ++ ',' ::
        ('"' :: (['v'] ++ '"' :: ':' :: (printJson v ++ ',' ::
          ('"' :: (['s'] ++ '"' :: ':' :: (printInt S ++ '\x7d' :: []))))))))).length + 1) true
        ('"' :: (['t', 's'] ++ '"' :: ':' :: (printInt T ++ ',' ::
        ('"' :: (['v'] ++ '"' :: ':' :: (printJson v ++ ',' ::
          ('"' :: (['s'] ++ '"' :: ':' :: (printInt S ++ '\x7d' :: [])))))))))).map
        (fun p => (Json.obj p.1, p.2)) := rfl
  rw [step1]
  rw [membersLoop_wire (('\x7b' :: '"' :: (['t', 's'] ++ '"' :: ':' :: (printInt T ++ ',' ::
        ('"' :: (['v'] ++ '"' :: ':' :: (printJson v ++ ',' ::
          ('"' :: (['s'] ++ '"' :: ':' :: (printInt S ++ '\x7d' :: []))))))))).length) T S v u1 z1 u2 z2 hA hS hv
    (('"' :: (['t', 's'] ++ '"' :: ':' :: (printInt T ++ ',' ::
        ('"' :: (['v'] ++ '"' :: ':' :: (printJson v ++ ',' ::
          ('"' :: (['s'] ++ '"' :: ':' :: (printInt S ++ '\x7d' :: []))))))))).length) (by simp)]
  rfl

/-- Helper: the strict decoder tier of wireToPV inverts the marshalling of
a wirePV whose value is a scalar and whose integer fields are in int64
range, leaving no buffered rest. -/
theorem decodeStream_printWire (w : WireRec) (hv : scalarWF w.value)
    (ht1 : int64Min ≤ w.time) (ht2 : w.time ≤ int64Max)
    (hs1 : int64Min ≤ w.state) (hs2 : w.state ≤ int64Max) :
    decodeStream (printWire w) = .ok (w, []) := by
  obtain ⟨u1, z1, hAint, hAparse⟩ := parseValueF_printInt w.time ht1 ht2
  obtain ⟨u2, z2, hSint, hSparse⟩ := parseValueF_printInt w.state hs1 hs2
  have hpl : printWire w = '\x7b' :: '"' :: (['t', 's'] ++ '"' :: ':' :: (printInt w.time ++ ',' ::
        ('"' :: (['v'] ++ '"' :: ':' :: (printJson w.value ++ ',' ::
          ('"' :: (['s'] ++ '"' :: ':' :: (printInt w.state ++ '\x7d' :: [])))))))) := by
    unfold printWire
    rw [show str "\x7b\"ts\":" = ['\x7b', '"', 't', 's', '"', ':'] from rfl,
      show str ",\"v\":" = [',', '"', 'v', '"', ':'] from rfl,
      show str ",\"s\":" = [',', '"', 's', '"', ':'] from rfl]
    simp
  have hobj := parseValueF_wire w.time w.state w.value u1 z1 u2 z2 hAparse hSparse hv
  have h1 : applyField ({} : WireRec) ['t', 's'] (Json.num u1 z1 true) =
      .ok { time := w.time } := by
    show (match jnumInt u1 z1 true with
      | some n => Except.ok ({ time := n } : WireRec)
      | none => Except.error (str "cannot unmarshal number into field ts of type int64")) =
      Except.ok ({ time := w.time } : WireRec)
    rw [hAint]
  have h2 : applyField ({ time := w.time } : WireRec) ['v'] w.value =
      .ok { time := w.time, value := w.value } := rfl
  have h3 : applyField ({ time := w.time, value := w.value } : WireRec) ['s']
      (Json.num u2 z2 true) = .ok ⟨w.time, w.value, w.state⟩ := by
    show (match jnumInt u2 z2 true with
      | some n => Except.ok ({ time := w.time, value := w.value, state := n } : WireRec)
      | none => Except.error (str "cannot unmarshal number into field s of type veap.State")) =
      Except.ok (⟨w.time, w.value, w.state⟩ : WireRec)
    rw [hSint]
  have happ : jsonToWire (Json.obj [(['t', 's'], Json.num u1 z1 true), (['v'], w.value),
      (['s'], Json.num u2 z2 true)]) = .ok w := by
    show applyFields ({} : WireRec) [(['t', 's'], Json.num u1 z1 true), (['v'], w.value),
      (['s'], Json.num u2 z2 true)] = .ok w
    simp only [applyFields]
    simp only [h1]
    simp only [h2]
    simp only [h3]
  unfold decodeStream goParse
  rw [hpl]
  rw [hobj]
  show (jsonToWire (Json.obj [(['t', 's'], Json.num u1 z1 true), (['v'], w.value),
    (['s'], Json.num u2 z2 true)])).map (fun w2 => (w2, ([] : List Char))) = .ok (w, [])
  rw [happ]
  rfl

/-- Helper: when Decode consumes the whole payload, the buffered window
past the value is empty. -/
theorem bufferedWindow_of_decode_nil (payload : List Char) (w : WireRec)
    (h : decodeStream payload = .ok (w, [])) : bufferedWindow payload = ([], 0) := by
  unfold decodeStream at h
  unfold bufferedWindow
  cases hgp : goParse payload with
  | error e => rw [hgp] at h
  | ok pr =>
    obtain ⟨j, rest⟩ := pr
    simp only [hgp] at h ⊢
    have hrest : rest = [] := by
      cases hj : jsonToWire j with
      | error e => rw [hj] at h; exact Except.noConfusion h
      | ok w2 =>
        rw [hj] at h
        simp only [Except.map, Except.ok.injEq, Prod.mk.injEq] at h
        exact h.2
    subst hrest
    rfl

/-- Helper: wrap64 is the identity on values in int64 range. -/
theorem wrap64_of_range (x : Int) (h1 : int64Min ≤ x) (h2 : x ≤ int64Max) : wrap64 x = x := by
  unfold int64Min at h1
  unfold int64Max at h2
  unfold wrap64
  have hlow : (0 : Int) ≤ x + 9223372036854775808 := by omega
  have hhigh : x + 9223372036854775808 < 18446744073709551616 := by omega
  rw [Int.emod_eq_of_lt hlow hhigh]
  omega

/-- C6: Round trip.  pvToWire truncates the timestamp to milliseconds and
always succeeds on scalar values; decoding the result with wireToPV
reproduces the value and the state exactly, and the timestamp to
millisecond precision (the decoded timestamp ts * 1000000 differs from the
original by less than one millisecond) — PROVIDED the truncated
millisecond timestamp is not zero: a zero ts is indistinguishable from an
absent timestamp, and wireToPV then substitutes the current time (see the
counterexample), which the original claim does not except.  The int64
range hypotheses state that the Go int64 fields Time and State hold their
values without overflow. -/
theorem roundTrip_amended (now : Int) (pv : PV)
    (hv : scalarWF pv.value)
    (ht1 : int64Min ≤ pv.time) (ht2 : pv.time ≤ int64Max)
    (hs1 : int64Min ≤ pv.state) (hs2 : pv.state ≤ int64Max)
    (hnz : Int.tdiv pv.time 1000000 ≠ 0) :
    ∃ pl, pvToWire pv = .ok pl ∧
      wireToPV now pl =
        .ok ⟨Int.tdiv pv.time 1000000 * 1000000, pv.value, pv.state⟩ ∧
      (Int.tdiv pv.time 1000000 * 1000000 - pv.time).natAbs < 1000000 := by
  have hm := Int.tdiv_add_tmod pv.time 1000000
  have hub := Int.tmod_lt_of_pos pv.time (show (0 : Int) < 1000000 by norm_num)
  have hmneg := Int.tdiv_add_tmod (-pv.time) 1000000
  have hneg : (-pv.time).tdiv 1000000 = -(pv.time.tdiv 1000000) :=
    Int.neg_tdiv pv.time 1000000
  have hubneg := Int.tmod_lt_of_pos (-pv.time) (show (0 : Int) < 1000000 by norm_num)
  have hge : 0 ≤ pv.time → 0 ≤ pv.time.tmod 1000000 := fun h => Int.tmod_nonneg 1000000 h
  have hge2 : 0 ≤ -pv.time → 0 ≤ (-pv.time).tmod 1000000 := fun h => Int.tmod_nonneg 1000000 h
  simp only [int64Min] at ht1
  simp only [int64Max] at ht2
  have hT1 : int64Min ≤ Int.tdiv pv.time 1000000 := by
    show (-9223372036854775808 : Int) ≤ _
    omega
  have hT2 : Int.tdiv pv.time 1000000 ≤ int64Max := by
    show _ ≤ (9223372036854775807 : Int)
    omega
  have hr1 : int64Min ≤ Int.tdiv pv.time 1000000 * 1000000 := by
    show (-9223372036854775808 : Int) ≤ _
    omega
  have hr2 : Int.tdiv pv.time 1000000 * 1000000 ≤ int64Max := by
    show _ ≤ (9223372036854775807 : Int)
    omega
  refine ⟨printWire ⟨Int.tdiv pv.time 1000000, pv.value, pv.state⟩, rfl, ?_, by omega⟩
  have hds := decodeStream_printWire ⟨Int.tdiv pv.time 1000000, pv.value, pv.state⟩
    hv hT1 hT2 hs1 hs2
  have hbw := bufferedWindow_of_decode_nil _ _ hds
  unfold wireToPV
  simp only [hds]
  simp only [hbw]
  simp only [readAllModel]
  rw [if_neg (by decide)]
  simp only [mkPV]
  rw [if_neg hnz]
  rw [wrap64_of_range (Int.tdiv pv.time 1000000 * 1000000) hr1 hr2]

/-- C6 counterexample: the ProcessValue with timestamp 900000 ns (0.9 ms
after the epoch, scalar boolean value, state GOOD) encodes to ts = 0 by
millisecond truncation; the decoder treats a zero ts as an absent
timestamp and substitutes the current time (here 5000000000 ns), so the
round-tripped timestamp is off by far more than one millisecond. -/
theorem roundTrip_cx :
    pvToWire ⟨900000, Json.bool true, 0⟩ =
      .ok (str "\x7b\"ts\":0,\"v\":true,\"s\":0\x7d") ∧
    wireToPV 5000000000 (str "\x7b\"ts\":0,\"v\":true,\"s\":0\x7d") =
      .ok ⟨5000000000, Json.bool true, 0⟩ ∧
    ((5000000000 : Int) - 900000).natAbs ≥ 1000000 :=
  ⟨rfl, rfl, by decide⟩

/-- C6 witness: the round trip at timestamp 5123456 ns, boolean value and
state 3: the encoding succeeds and decodes back to value true, state 3 and
timestamp 5000000 ns, within one millisecond of the original. -/
theorem roundTrip_witness :
    ∃ pl, pvToWire ⟨5123456, Json.bool true, 3⟩ = .ok pl ∧
      wireToPV 77 pl =
        .ok ⟨Int.tdiv 5123456 1000000 * 1000000, Json.bool true, 3⟩ ∧
      (Int.tdiv 5123456 1000000 * 1000000 - 5123456).natAbs < 1000000 :=
  roundTrip_amended 77 ⟨5123456, Json.bool true, 3⟩ trivial (by decide) (by decide)
    (by decide) (by decide) (by decide)
